import Mathlib

/-!
Shallow embedding of the wdl-rs data model and parser infrastructure
(src/model.rs, src/parsers/pest/node.rs, src/parsers/tree_sitter/node.rs,
src/parsers/pest/workflow.rs, src/parsers/tree_sitter/workflow.rs),
together with theorems settling the specification claims about it.

Machine integers (`usize`, `i64`) are modelled as `Nat`/`Int` with explicit
range checks where the Rust code performs checked parsing; `Result<T, E>` is
modelled as `Except`; shared-mutable state (the comment map behind
`Rc<RefCell<..>>`) is threaded explicitly.
-/

namespace Wdl

/-- Model of `Position` from src/model.rs: a zero-based, end-exclusive source position
with line, column and absolute byte offset. -/
structure Position where
  line : Nat
  column : Nat
  offset : Nat
deriving DecidableEq, Repr

/-- Model of `Position::shift_left`: subtracts `n` from column and offset (the Rust
code asserts both are `>= n`; `Nat` subtraction is used here and all uses in
this development satisfy the bound). -/
def Position.shiftLeft (p : Position) (n : Nat) : Position :=
  { p with column := p.column - n, offset := p.offset - n }

/-- Model of `Span` from src/model.rs: the start and end positions of the source
range a model element was derived from. -/
structure Span where
  start : Position
  «end» : Position
deriving DecidableEq, Repr

/-- Model of `Span::len` exactly as written in src/model.rs (note the extra `- 1`):
`self.end.offset - self.start.offset - 1`. -/
def Span.len (s : Span) : Nat :=
  s.«end».offset - s.start.offset - 1

/-- Model of `Span::from_range`: the union span `left.start .. right.end`. -/
def Span.fromRange (left right : Span) : Span :=
  { start := left.start, «end» := right.«end» }

/-- Model of `Span::from_components`. -/
def Span.fromComponents (sl sc so el ec eo : Nat) : Span :=
  { start := ⟨sl, sc, so⟩, «end» := ⟨el, ec, eo⟩ }

/-- Model of `Span::trim_end`: shift the end position left by `n`. -/
def Span.trimEnd (s : Span) (n : Nat) : Span :=
  { s with «end» := s.«end».shiftLeft n }

/-- Model of `ModelError` from src/model.rs (the payloads carried by each variant are
kept; `error_stack` attachments are dropped). `parser msg` stands for
`ModelError::parser(msg) = Grammar { kind: "parser", value: msg }`. -/
inductive ModelError where
  | Grammar (kind : String) (value : String)
  | Integer (lexeme : String)
  | Float (lexeme : String)
  | Version (lexeme : String)
  | TaskRepeatedElement (task : String) (kind : String)
  | TaskMissingCommand (task : String)
  | WorkflowRepeatedElement (workflow : String) (kind : String)
  | DocumentIncomplete
  | DocumentMultipleWorkflows
  | CommentRepeatedLine (line : Nat)
deriving DecidableEq, Repr

/-- Model of `ModelError::parser`. -/
def ModelError.parser (msg : String) : ModelError :=
  .Grammar "parser" msg

/-- Model of `Anchor<T>` from src/model.rs: a model element together with the source
span it was derived from. -/
structure Anchor (α : Type) where
  element : α
  span : Span
deriving DecidableEq, Repr

/-- Model of `Comments` from src/model.rs: a `BTreeMap<usize, Anchor<String>>` mapping
source lines to comments, modelled as an association list kept sorted by
strictly increasing line number (the `BTreeMap` invariant). -/
structure Comments where
  entries : List (Nat × Anchor String)
deriving DecidableEq, Repr

/-- The empty comment map (`Comments::default`). -/
def Comments.empty : Comments := ⟨[]⟩

/-- Model of `BTreeMap::contains_key`. -/
def Comments.containsKey (c : Comments) (line : Nat) : Bool :=
  c.entries.any (fun p => p.1 == line)

/-- Sorted-insert into the underlying map (`BTreeMap::insert`; replaces an
existing entry with the same key). -/
def Comments.insertEntry : List (Nat × Anchor String) → Nat → Anchor String →
    List (Nat × Anchor String)
  | [], line, v => [(line, v)]
  | (k, x) :: rest, line, v =>
    if line < k then (line, v) :: (k, x) :: rest
    else if line = k then (line, v) :: rest
    else (k, x) :: Comments.insertEntry rest line v

/-- Model of `Comments::try_insert`: fails with `CommentRepeatedLine` when a comment
already exists for `line`, otherwise inserts. -/
def Comments.tryInsert (c : Comments) (line : Nat) (comment : Anchor String) :
    Except ModelError Comments :=
  if c.containsKey line then .error (.CommentRepeatedLine line)
  else .ok ⟨Comments.insertEntry c.entries line comment⟩

/-- Model of `Comments::get`: the comment on the given line, if any. -/
def Comments.get (c : Comments) (line : Nat) : Option (Anchor String) :=
  (c.entries.find? (fun p => p.1 == line)).map (fun p => p.2)

/-- The `BTreeMap` well-formedness invariant: keys strictly increasing. -/
def Comments.keysSorted : List (Nat × Anchor String) → Bool
  | [] => true
  | [_] => true
  | (k, _) :: (k', x) :: rest => k < k' && Comments.keysSorted ((k', x) :: rest)

/-- The spec invariant for the comment map: at most one comment per line. -/
def Comments.atMostOnePerLine (c : Comments) : Bool :=
  (c.entries.map (fun p => p.1)).Nodup && true

/-- Model of `Integer` from src/model.rs: a 64-bit integer tagged with the radix of
its source lexeme. -/
inductive Integer where
  | Decimal (i : Int)
  | Octal (i : Int)
  | Hex (i : Int)
deriving DecidableEq, Repr

/-- Model of `i64::MAX`. -/
def i64Max : Int := 2 ^ 63 - 1

/-- Model of `i64::MIN`. -/
def i64Min : Int := -(2 ^ 63)

/-- Model of `char::to_digit`: the value of `c` as a digit in the given radix. -/
def digitValue (radix : Nat) (c : Char) : Option Nat :=
  let v? : Option Nat :=
    if '0' ≤ c ∧ c ≤ '9' then some (c.toNat - '0'.toNat)
    else if 'a' ≤ c ∧ c ≤ 'z' then some (c.toNat - 'a'.toNat + 10)
    else if 'A' ≤ c ∧ c ≤ 'Z' then some (c.toNat - 'A'.toNat + 10)
    else none
  match v? with
  | some v => if v < radix then some v else none
  | none => none

/-- The digit-accumulation loop of `i64::from_str_radix` (magnitude only). -/
def parseDigitsAux (radix : Nat) : List Char → Nat → Option Nat
  | [], acc => some acc
  | c :: rest, acc =>
    match digitValue radix c with
    | some d => parseDigitsAux radix rest (acc * radix + d)
    | none => none

/-- One or more digits in the given radix, as a natural number. -/
def parseDigits (radix : Nat) : List Char → Option Nat
  | [] => none
  | l => parseDigitsAux radix l 0

/-- Model of `i64::from_str_radix`: optional sign, one or more digits, checked
against the `i64` range. -/
def i64FromStrRadix (radix : Nat) (l : List Char) : Option Int :=
  match l with
  | '+' :: rest =>
    match parseDigits radix rest with
    | some n => if (n : Int) ≤ i64Max then some (n : Int) else none
    | none => none
  | '-' :: rest =>
    match parseDigits radix rest with
    | some n => if i64Min ≤ -(n : Int) then some (-(n : Int)) else none
    | none => none
  | _ =>
    match parseDigits radix l with
    | some n => if (n : Int) ≤ i64Max then some (n : Int) else none
    | none => none

/-- The body of `impl FromStr for Integer` (src/model.rs), with the lexeme
passed both as the original string (for error payloads) and as its character
list (for prefix inspection; the Rust byte slices `&s[1..]`/`&s[2..]` fall on
ASCII boundaries whenever those branches are taken). -/
def Integer.fromStrList (s : String) : List Char → Except ModelError Integer
  | '0' :: c2 :: rest2 =>
    if c2 = 'x' ∨ c2 = 'X' then
      match i64FromStrRadix 16 rest2 with
      | some v => .ok (.Hex v)
      | none => .error (.Integer s)
    else if '0' ≤ c2 ∧ c2 ≤ '7' then
      match i64FromStrRadix 8 (c2 :: rest2) with
      | some v => .ok (.Octal v)
      | none => .error (.Integer s)
    else .error (.Grammar "integer" s)
  | l =>
    match i64FromStrRadix 10 l with
    | some v => .ok (.Decimal v)
    | none => .error (.Integer s)

/-- Model of `Integer::from_str`. -/
def Integer.fromStr (s : String) : Except ModelError Integer :=
  Integer.fromStrList s s.toList

/-- The unary operator lexemes `POS`/`NEG`/`NOT` from src/model.rs. -/
def POS : String := "+"
def NEG : String := "-"
def NOT : String := "!"

/-- Model of `UnaryOperator` from src/model.rs. -/
inductive UnaryOperator where
  | Pos
  | Neg
  | Not
deriving DecidableEq, Repr

/-- Model of `impl FromStr for UnaryOperator`. -/
def UnaryOperator.fromStr (s : String) : Except ModelError UnaryOperator :=
  if s = POS then .ok .Pos
  else if s = NEG then .ok .Neg
  else if s = NOT then .ok .Not
  else .error (.Grammar "unary operator" s)

/-- Model of `impl Display for UnaryOperator`. -/
def UnaryOperator.display : UnaryOperator → String
  | .Pos => POS
  | .Neg => NEG
  | .Not => NOT

/-- The binary operator lexemes from src/model.rs. -/
def ADD : String := "+"
def SUB : String := "-"
def MUL : String := "*"
def DIV : String := "/"
def MOD : String := "%"
def GT : String := ">"
def LT : String := "<"
def GTE : String := ">="
def LTE : String := "<="
def EQ : String := "=="
def NEQ : String := "!="
def AND : String := "&&"
def OR : String := "||"

/-- Model of `BinaryOperator` from src/model.rs. -/
inductive BinaryOperator where
  | Add
  | Sub
  | Mul
  | Div
  | Mod
  | Gt
  | Lt
  | Gte
  | Lte
  | Eq
  | Neq
  | And
  | Or
deriving DecidableEq, Repr

/-- Model of `impl FromStr for BinaryOperator`. -/
def BinaryOperator.fromStr (s : String) : Except ModelError BinaryOperator :=
  if s = ADD then .ok .Add
  else if s = SUB then .ok .Sub
  else if s = MUL then .ok .Mul
  else if s = DIV then .ok .Div
  else if s = MOD then .ok .Mod
  else if s = GT then .ok .Gt
  else if s = LT then .ok .Lt
  else if s = GTE then .ok .Gte
  else if s = LTE then .ok .Lte
  else if s = EQ then .ok .Eq
  else if s = NEQ then .ok .Neq
  else if s = AND then .ok .And
  else if s = OR then .ok .Or
  else .error (.Grammar "binary operator" s)

/-- Model of `impl Display for BinaryOperator`. -/
def BinaryOperator.display : BinaryOperator → String
  | .Add => ADD
  | .Sub => SUB
  | .Mul => MUL
  | .Div => DIV
  | .Mod => MOD
  | .Gt => GT
  | .Lt => LT
  | .Gte => GTE
  | .Lte => LTE
  | .Eq => EQ
  | .Neq => NEQ
  | .And => AND
  | .Or => OR

/-- Model of `Namespace` from src/model.rs. -/
inductive Namespace where
  | Explicit (a : Anchor String)
  | Implicit (s : String)
deriving DecidableEq, Repr

/-- Splits a character list on newline characters (the `.` metacharacter of
the Rust `regex` crate does not match `\n`). -/
def splitLines : List Char → List (List Char)
  | [] => [[]]
  | c :: rest =>
    let r := splitLines rest
    if c = '\n' then [] :: r
    else
      match r with
      | h :: t => (c :: h) :: t
      | [] => [[c]]

/-- Within a single (newline-free) line, the capture produced by matching
`.*/(.+?)(?:\.wdl)?` starting at the line's first position: the greedy `.*`
extends to the last `/` that still leaves at least one character for the
lazy `(.+?)`, which (because the optional suffix group can always match
empty and the pattern is unanchored) captures exactly one character — the
character immediately after that slash. -/
def lastSlashCapture : List Char → Option Char
  | [] => none
  | c :: rest =>
    match lastSlashCapture rest with
    | some ch => some ch
    | none => if c = '/' then rest.head? else none

/-- Model of `Regex::captures` for the pattern `.*/(.+?)(?:\.wdl)?` under the regex
crate's leftmost-first semantics: the match lives inside a single line (no
metacharacter matches `\n`), the leftmost start position is the start of the
first line containing a `/` followed by another character, and group 1
captures the single character after the last such `/` of that line. -/
def fromUriCapture (l : List Char) : Option Char :=
  (splitLines l).firstM lastSlashCapture

/-- Model of `Namespace::from_uri` (src/model.rs): capture from the regex if the URI
contains a qualifying `/`; otherwise strip a trailing `.wdl`, otherwise use
the whole string. `str::ends_with` and the byte slice `&s[0..len-4]` are
modelled on the character list (the suffix `".wdl"` is ASCII). -/
def Namespace.fromUri (s : String) : Namespace :=
  match fromUriCapture s.toList with
  | some c => .Implicit (String.mk [c])
  | none =>
    if (".wdl".toList).isSuffixOf s.toList then
      .Implicit (String.mk (s.toList.take (s.toList.length - 4)))
    else .Implicit s

/-- Model of `Float` from src/model.rs: an `f64` tagged by lexeme form. Claims do not
inspect float values; the payload is Lean's `Float`. -/
inductive FloatLit where
  | Decimal (f : Float)
  | Scientific (f : Float)

mutual

/-- Model of `StringPart` from src/model.rs. -/
inductive StringPart where
  | Content (s : String)
  | Escape (s : String)
  | Placeholder (e : Expression)

/-- Model of `StringLiteral` from src/model.rs. -/
inductive StringLiteral where
  | mk (parts : List (Anchor StringPart))

/-- Model of `ArrayLiteral` from src/model.rs. -/
inductive ArrayLiteral where
  | mk (elements : List (Anchor Expression))

/-- Model of `MapEntry` from src/model.rs. -/
inductive MapEntry where
  | mk (key : Anchor Expression) (value : Anchor Expression)

/-- Model of `MapLiteral` from src/model.rs. -/
inductive MapLiteral where
  | mk (entries : List (Anchor MapEntry))

/-- Model of `PairLiteral` from src/model.rs (`InnerExpression = Box<Anchor<Expression>>`;
the box is transparent here). -/
inductive PairLiteral where
  | mk (left : Anchor Expression) (right : Anchor Expression)

/-- Model of `ObjectField` from src/model.rs. -/
inductive ObjectField where
  | mk (name : Anchor String) (expression : Anchor Expression)

/-- Model of `ObjectLiteral` from src/model.rs. -/
inductive ObjectLiteral where
  | mk (typeName : Anchor String) (fields : List (Anchor ObjectField))

/-- Model of `Unary` from src/model.rs. -/
inductive Unary where
  | mk (operator : UnaryOperator) (expression : Anchor Expression)

/-- Model of `Binary` from src/model.rs. -/
inductive Binary where
  | mk (operator : BinaryOperator) (left : Anchor Expression)
      (right : Anchor Expression)

/-- Model of `Apply` from src/model.rs. -/
inductive Apply where
  | mk (name : Anchor String) (arguments : List (Anchor Expression))

/-- Model of `AccessOperation` from src/model.rs. -/
inductive AccessOperation where
  | Index (e : Expression)
  | Field (name : String)

/-- Model of `Access` from src/model.rs. -/
inductive Access where
  | mk (collection : Anchor Expression)
      (accesses : List (Anchor AccessOperation))

/-- Model of `Ternary` from src/model.rs. -/
inductive Ternary where
  | mk (condition : Anchor Expression) (trueBranch : Anchor Expression)
      (falseBranch : Anchor Expression)

/-- Model of `Expression` from src/model.rs. -/
inductive Expression where
  | None
  | Boolean (b : Bool)
  | Int (i : Integer)
  | Float (f : FloatLit)
  | String (s : StringLiteral)
  | Array (a : ArrayLiteral)
  | Map (m : MapLiteral)
  | Pair (p : PairLiteral)
  | Object (o : ObjectLiteral)
  | Unary (u : Unary)
  | Binary (b : Binary)
  | Apply (a : Apply)
  | Access (a : Access)
  | Ternary (t : Ternary)
  | Group (g : Anchor Expression)
  | Identifier (name : String)

end

/-- Model of `Type` from src/model.rs (named `WdlType` because `Type` is reserved in
Lean). `InnerType = Box<Anchor<Type>>` is transparent. -/
inductive WdlType where
  | Boolean
  | Int
  | Float
  | String
  | File
  | Array (item : Anchor WdlType) (nonEmpty : Bool)
  | Map (key : Anchor WdlType) (value : Anchor WdlType)
  | Pair (left : Anchor WdlType) (right : Anchor WdlType)
  | Object
  | User (name : String)
  | Optional (inner : Anchor WdlType)

/-- Model of `UnboundDeclaration` from src/model.rs. -/
structure UnboundDeclaration where
  type_ : Anchor WdlType
  name : Anchor String

/-- Model of `BoundDeclaration` from src/model.rs. -/
structure BoundDeclaration where
  type_ : Anchor WdlType
  name : Anchor String
  expression : Anchor Expression

/-- Model of `InputDeclaration` from src/model.rs. -/
inductive InputDeclaration where
  | Bound (d : BoundDeclaration)
  | Unbound (d : UnboundDeclaration)

/-- Model of `Input` from src/model.rs. -/
structure Input where
  declarations : List (Anchor InputDeclaration)

/-- Model of `Output` from src/model.rs. -/
structure Output where
  declarations : List (Anchor BoundDeclaration)

/-- Model of `MetaStringPart` from src/model.rs. -/
inductive MetaStringPart where
  | Content (s : String)
  | Escape (s : String)

/-- Model of `MetaString` from src/model.rs. -/
structure MetaString where
  parts : List (Anchor MetaStringPart)

mutual

/-- Model of `MetaValue` from src/model.rs. -/
inductive MetaValue where
  | Null
  | Boolean (b : Bool)
  | Int (i : Integer)
  | Float (f : FloatLit)
  | String (s : MetaString)
  | Array (a : MetaArray)
  | Object (o : MetaObject)

/-- Model of `MetaArray` from src/model.rs. -/
inductive MetaArray where
  | mk (elements : List (Anchor MetaValue))

/-- Model of `MetaObjectField` from src/model.rs. -/
inductive MetaObjectField where
  | mk (name : Anchor String) (value : Anchor MetaValue)

/-- Model of `MetaObject` from src/model.rs. -/
inductive MetaObject where
  | mk (fields : List (Anchor MetaObjectField))

end

/-- Model of `MetaAttribute` from src/model.rs. -/
structure MetaAttribute where
  name : Anchor String
  value : Anchor MetaValue

/-- Model of `Meta` from src/model.rs. -/
structure Meta where
  attributes : List (Anchor MetaAttribute)

/-- Model of `ParameterMeta` from src/model.rs. -/
structure ParameterMeta where
  attributes : List (Anchor MetaAttribute)

/-- Model of `Command` from src/model.rs. -/
structure Command where
  parts : List (Anchor StringPart)

/-- Model of `RuntimeAttribute` from src/model.rs. -/
structure RuntimeAttribute where
  name : Anchor String
  expression : Anchor Expression

/-- Model of `Runtime` from src/model.rs. -/
structure Runtime where
  attributes : List (Anchor RuntimeAttribute)

/-- Model of `TaskElement` from src/model.rs. -/
inductive TaskElement where
  | Input (i : Input)
  | Output (o : Output)
  | Declaration (d : BoundDeclaration)
  | Command (c : Command)
  | Runtime (r : Runtime)
  | Meta (m : Meta)
  | ParameterMeta (p : ParameterMeta)

/-- Model of `TaskElement::kind`. -/
def TaskElement.kind : TaskElement → String
  | .Input _ => "input"
  | .Output _ => "output"
  | .Declaration _ => "declaration"
  | .Command _ => "command"
  | .Runtime _ => "runtime"
  | .Meta _ => "meta"
  | .ParameterMeta _ => "parameter_meta"

/-- Model of `Task` from src/model.rs. -/
structure Task where
  name : Anchor String
  body : List (Anchor TaskElement)

/-- Model of `QualifiedIdentifier` from src/model.rs. -/
structure QualifiedIdentifier where
  parts : List (Anchor String)

/-- Model of `CallInput` from src/model.rs. -/
structure CallInput where
  name : Anchor String
  expression : Option (Anchor Expression)

/-- Model of `Call` from src/model.rs. -/
structure Call where
  target : Anchor QualifiedIdentifier
  «alias» : Option (Anchor String)
  inputs : Option (List (Anchor CallInput))

mutual

/-- Model of `WorkflowNestedElement` from src/model.rs. -/
inductive WorkflowNestedElement where
  | Declaration (d : BoundDeclaration)
  | Call (c : Call)
  | Scatter (s : Scatter)
  | Conditional (c : Conditional)

/-- Model of `Scatter` from src/model.rs. -/
inductive Scatter where
  | mk (name : Anchor String) (expression : Anchor Expression)
      (body : List (Anchor WorkflowNestedElement))

/-- Model of `Conditional` from src/model.rs. -/
inductive Conditional where
  | mk (expression : Anchor Expression)
      (body : List (Anchor WorkflowNestedElement))

end

/-- Model of `WorkflowElement` from src/model.rs (note: in the source the
`ParameterMeta` variant carries a `Meta` payload). -/
inductive WorkflowElement where
  | Input (i : Input)
  | Output (o : Output)
  | Declaration (d : BoundDeclaration)
  | Call (c : Call)
  | Scatter (s : Scatter)
  | Conditional (c : Conditional)
  | Meta (m : Meta)
  | ParameterMeta (m : Meta)

/-- Model of `WorkflowElement::kind`. -/
def WorkflowElement.kind : WorkflowElement → String
  | .Input _ => "input"
  | .Output _ => "output"
  | .Declaration _ => "declaration"
  | .Call _ => "call"
  | .Scatter _ => "scatter"
  | .Conditional _ => "conditional"
  | .Meta _ => "meta"
  | .ParameterMeta _ => "parameter_meta"

/-- Model of `Workflow` from src/model.rs. -/
structure Workflow where
  name : Anchor String
  body : List (Anchor WorkflowElement)

/-- Model of `DocumentSource` from src/model.rs (`PathBuf` modelled as `String`). -/
inductive DocumentSource where
  | File (path : String)
  | Uri (uri : String)
  | Unknown

/-- Model of `VersionIdentifier` from src/model.rs. -/
inductive VersionIdentifier where
  | V1_0
  | V1_1
deriving DecidableEq, Repr

/-- Model of `impl FromStr for VersionIdentifier`. -/
def VersionIdentifier.fromStr (s : String) : Except ModelError VersionIdentifier :=
  if s = "1.0" then .ok .V1_0
  else if s = "1.1" then .ok .V1_1
  else .error (.Version s)

/-- Model of `Version` from src/model.rs. -/
structure Version where
  identifier : Anchor VersionIdentifier

/-- Model of `Alias` from src/model.rs (`from` is reserved in Lean). -/
structure Alias where
  from_ : Anchor String
  «to» : Anchor String

/-- Model of `Import` from src/model.rs (`namespace` is reserved in Lean). -/
structure Import where
  uri : Anchor String
  namespace_ : Namespace
  aliases : List (Anchor Alias)

/-- Model of `Struct` from src/model.rs. -/
structure Struct where
  name : Anchor String
  fields : List (Anchor UnboundDeclaration)

/-- Model of `DocumentElement` from src/model.rs. -/
inductive DocumentElement where
  | Import (i : Import)
  | Struct (s : Struct)
  | Task (t : Task)
  | Workflow (w : Workflow)

/-- Model of `Document` from src/model.rs. -/
structure Document where
  source : DocumentSource
  version : Anchor Version
  body : List (Anchor DocumentElement)
  comments : Comments

/-- The `must_be_unique` test inside `Task::validate`: every element except
a `Declaration` must occur at most once. -/
def taskMustBeUnique : TaskElement → Bool
  | .Input _ | .Output _ | .Command _ | .Runtime _ | .Meta _
  | .ParameterMeta _ => true
  | _ => false

/-- The iteration loop of `Task::validate`: walk the body, collecting the
kinds of unique elements into `seen` (the Rust `HashSet`), failing on a
repeat. -/
def Task.validateGo (task : String) (seen : List String) :
    List (Anchor TaskElement) → Except ModelError (List String)
  | [] => .ok seen
  | e :: rest =>
    if taskMustBeUnique e.element then
      let kind := e.element.kind
      if seen.contains kind then .error (.TaskRepeatedElement task kind)
      else Task.validateGo task (kind :: seen) rest
    else Task.validateGo task seen rest

/-- Model of `Task::validate` from src/model.rs: uniqueness loop, then the required
`command` check. -/
def Task.validate (t : Task) : Except ModelError Unit :=
  match Task.validateGo t.name.element [] t.body with
  | .error e => .error e
  | .ok seen =>
    if seen.contains "command" then .ok ()
    else .error (.TaskMissingCommand t.name.element)

/-- The uniqueness test inside `Workflow::validate`: only `Input`, `Output`,
`Meta` and `ParameterMeta` are checked. -/
def workflowMustBeUnique : WorkflowElement → Bool
  | .Input _ | .Output _ | .Meta _ | .ParameterMeta _ => true
  | _ => false

/-- The iteration loop of `Workflow::validate`. -/
def Workflow.validateGo (workflow : String) (seen : List String) :
    List (Anchor WorkflowElement) → Except ModelError (List String)
  | [] => .ok seen
  | e :: rest =>
    if workflowMustBeUnique e.element then
      let kind := e.element.kind
      if seen.contains kind then .error (.WorkflowRepeatedElement workflow kind)
      else Workflow.validateGo workflow (kind :: seen) rest
    else Workflow.validateGo workflow seen rest

/-- Model of `Workflow::validate` from src/model.rs. -/
def Workflow.validate (w : Workflow) : Except ModelError Unit :=
  match Workflow.validateGo w.name.element [] w.body with
  | .error e => .error e
  | .ok _ => .ok ()

/-- The iteration loop of `Document::validate`: validates nested tasks and
workflows and counts `element_count` and `workflow_count`. -/
def Document.validateGo :
    List (Anchor DocumentElement) → Nat → Nat → Except ModelError (Nat × Nat)
  | [], elementCount, workflowCount => .ok (elementCount, workflowCount)
  | e :: rest, elementCount, workflowCount =>
    match e.element with
    | .Task t =>
      match t.validate with
      | .error err => .error err
      | .ok _ => Document.validateGo rest (elementCount + 1) workflowCount
    | .Workflow w =>
      match w.validate with
      | .error err => .error err
      | .ok _ => Document.validateGo rest (elementCount + 1) (workflowCount + 1)
    | .Struct _ => Document.validateGo rest (elementCount + 1) workflowCount
    | _ => Document.validateGo rest elementCount workflowCount

/-- Model of `Document::validate` from src/model.rs: the loop above, then
`ensure!(element_count > 0, DocumentIncomplete)` and
`ensure!(workflow_count <= 1, DocumentMultipleWorkflows)` in that order. -/
def Document.validate (d : Document) : Except ModelError Unit :=
  match Document.validateGo d.body 0 0 with
  | .error e => .error e
  | .ok (elementCount, workflowCount) =>
    if elementCount > 0 then
      if workflowCount ≤ 1 then .ok ()
      else .error .DocumentMultipleWorkflows
    else .error .DocumentIncomplete

/-- Model of `Document::body_iter`: the body elements with anchors stripped. -/
def Document.bodyIter (d : Document) : List DocumentElement :=
  d.body.map (fun e => e.element)

/-- Model of `Document::get_primary_element` from src/model.rs: the first Workflow
if any, else the unique Task if there is exactly one, else `none`. -/
def Document.getPrimaryElement (d : Document) : Option DocumentElement :=
  match d.bodyIter.find? (fun e =>
      match e with
      | .Workflow _ => true
      | _ => false) with
  | some e => some e
  | none =>
    let tasks := d.bodyIter.filter (fun e =>
      match e with
      | .Task _ => true
      | _ => false)
    if tasks.length == 1 then tasks.head? else none

/-- Whether a document element is a Workflow (the predicate used by
`get_primary_element`'s `find`). -/
def isWorkflowElement : DocumentElement → Bool
  | .Workflow _ => true
  | _ => false

/-- Whether a document element is a Task. -/
def isTaskElement : DocumentElement → Bool
  | .Task _ => true
  | _ => false

/-- The number of body elements satisfying `p`. -/
def elemCount (p : TaskElement → Bool) (body : List (Anchor TaskElement)) : Nat :=
  (body.filter (fun e => p e.element)).length

/-- Whether a task element is the Command element, etc. -/
def isCommand : TaskElement → Bool
  | .Command _ => true
  | _ => false

def isInput : TaskElement → Bool
  | .Input _ => true
  | _ => false

def isOutput : TaskElement → Bool
  | .Output _ => true
  | _ => false

def isRuntime : TaskElement → Bool
  | .Runtime _ => true
  | _ => false

def isMeta : TaskElement → Bool
  | .Meta _ => true
  | _ => false

def isParameterMeta : TaskElement → Bool
  | .ParameterMeta _ => true
  | _ => false

/-- The "amended-claim" reading of `Integer::from_str`, with
`i64::from_str_radix` as the meaning of "parsed in radix r". -/
def radixResult (radix : Nat) (l : List Char) (s : String)
    (tag : Int → Integer) : Except ModelError Integer :=
  match i64FromStrRadix radix l with
  | some v => .ok (tag v)
  | none => .error (.Integer s)

end Wdl

deriving instance DecidableEq for Except

namespace Wdl

/-- Claim C3: `Span::len` as written returns
`end.offset - start.offset - 1`, one less than the byte length of the
half-open range `[start, end)` documented for `Position`/`Span`; on the
two-byte span `[0, 2)` it returns 1 instead of 2. -/
theorem spanLen_code_bug :
    Span.len (Span.fromComponents 0 0 0 0 2 2) = 1 ∧
    Span.len (Span.fromComponents 0 0 0 0 2 2) ≠ 2 := by
  decide

/-- Claim C2: `Namespace::from_uri` applied to a URI with a `/` captures only
the single character after the last slash (the lazy group of the unanchored
pattern `.*/(.+?)(?:\.wdl)?` matches exactly one character and the optional
`.wdl` group never strips anything), so the final path segment `remote.wdl`
yields `Implicit "r")`, not `Implicit "remote"`. -/
theorem namespaceFromUri_code_bug :
    Namespace.fromUri "https://example.com/remote.wdl" = .Implicit "r" ∧
    Namespace.fromUri "https://example.com/remote.wdl" ≠ .Implicit "remote" ∧
    Namespace.fromUri "local.wdl" = .Implicit "local" := by
  refine ⟨by decide, by decide, by decide⟩

/-- Claim C9: for every unary and binary operator variant, parsing the
displayed textual form returns the same variant. -/
theorem operatorRoundtrip_confirmed :
    (∀ op : UnaryOperator, UnaryOperator.fromStr op.display = .ok op) ∧
    (∀ op : BinaryOperator, BinaryOperator.fromStr op.display = .ok op) := by
  constructor <;> intro op <;> cases op <;> rfl

/-- Claim C7 (counterexample): on the lexeme `"08"` — `0` followed by the
digit `8` — the code fails with `Grammar {kind: "integer"}` rather than
selecting radix 8 and failing with `Integer("08")` as the claim states. -/
theorem integerFromStr_counterexample :
    Integer.fromStr "08" = .error (.Grammar "integer" "08") ∧
    Integer.fromStr "08" ≠ .error (.Integer "08") := by
  decide

/-- Claim C7 (amended): `Integer::from_str` dispatches on the prefix: `0x`/`0X`
parses the rest in radix 16 as Hex; `0` followed by an octal digit `0`..`7`
parses from that digit onward in radix 8 as Octal; any other lexeme of length
at least 2 starting with `0` fails with `Grammar {kind: "integer"}`; every
remaining lexeme is parsed as a plain i64 yielding Decimal; whenever the
selected radix parse fails the error is `Integer(lexeme)`. -/
theorem integerFromStr_amended_confirmed :
    (∀ (s : String) (rest : List Char),
      (s.toList = '0' :: 'x' :: rest ∨ s.toList = '0' :: 'X' :: rest) →
      Integer.fromStr s = radixResult 16 rest s Integer.Hex) ∧
    (∀ (s : String) (c : Char) (rest : List Char),
      s.toList = '0' :: c :: rest → '0' ≤ c → c ≤ '7' →
      Integer.fromStr s = radixResult 8 (c :: rest) s Integer.Octal) ∧
    (∀ (s : String) (c : Char) (rest : List Char),
      s.toList = '0' :: c :: rest → ¬(c = 'x' ∨ c = 'X') →
      ¬('0' ≤ c ∧ c ≤ '7') →
      Integer.fromStr s = .error (.Grammar "integer" s)) ∧
    (∀ s : String, (∀ (c : Char) (rest : List Char),
        s.toList ≠ '0' :: c :: rest) →
      Integer.fromStr s = radixResult 10 s.toList s Integer.Decimal) := by
  have key : ∀ (s : String) (l : List Char), s.toList = l →
      Integer.fromStr s = Integer.fromStrList s l := by
    intro s l h
    unfold Integer.fromStr
    rw [h]
  refine ⟨?_, ?_, ?_, ?_⟩
  · rintro s rest (h | h) <;> rw [key s _ h] <;>
      simp [Integer.fromStrList, radixResult]
  · intro s c rest h h0 h7
    rw [key s _ h]
    have hx : ¬(c = 'x' ∨ c = 'X') := by
      rintro (rfl | rfl) <;> revert h7 <;> decide
    simp only [Integer.fromStrList]
    rw [if_neg hx, if_pos ⟨h0, h7⟩]
    rfl
  · intro s c rest h hx h07
    rw [key s _ h]
    simp only [Integer.fromStrList]
    rw [if_neg hx, if_neg h07]
  · intro s h
    rw [key s _ rfl, Integer.fromStrList.eq_def]
    split
    · rename_i heq; exact absurd heq (h _ _)
    · rfl

/-- Claim C7 (witness): the amended dispatch evaluated on `"0x1F"`, `"017"`,
`"08"` and `"42"`. -/
theorem integerFromStr_witness :
    Integer.fromStr "0x1F" = radixResult 16 ['1', 'F'] "0x1F" Integer.Hex ∧
    Integer.fromStr "017" = radixResult 8 ['1', '7'] "017" Integer.Octal ∧
    Integer.fromStr "08" = .error (.Grammar "integer" "08") ∧
    Integer.fromStr "42" = radixResult 10 ['4', '2'] "42" Integer.Decimal := by
  refine ⟨?_, ?_, ?_, ?_⟩
  · exact integerFromStr_amended_confirmed.1 "0x1F" ['1', 'F'] (Or.inl (by decide))
  · exact integerFromStr_amended_confirmed.2.1 "017" '1' ['7'] (by decide)
      (by decide) (by decide)
  · exact integerFromStr_amended_confirmed.2.2.1 "08" '8' [] (by decide)
      (by decide) (by decide)
  · refine integerFromStr_amended_confirmed.2.2.2 "42" ?_
    intro c rest h
    rw [show "42".toList = ['4', '2'] from rfl] at h
    injection h with h1 h2
    exact absurd h1 (by decide)

/-- Model of `find?` returns the head of the filtered list. -/
theorem find?_eq_head?_filter (p : α → Bool) (l : List α) :
    l.find? p = (l.filter p).head? := by
  induction l with
  | nil => rfl
  | cons a t ih =>
    by_cases h : p a = true
    · rw [List.find?_cons_of_pos _ h, List.filter_cons_of_pos h]
      rfl
    · rw [List.find?_cons_of_neg _ h, List.filter_cons_of_neg h, ih]

/-- Claim C10: `get_primary_element` returns the first Workflow of the body
when one exists; otherwise the unique Task when the body holds exactly one
Task; otherwise `none`. -/
theorem getPrimaryElement_confirmed (d : Document) :
    d.getPrimaryElement =
      match (d.bodyIter.filter isWorkflowElement).head? with
      | some w => some w
      | none =>
        match d.bodyIter.filter isTaskElement with
        | [t] => some t
        | _ => none := by
  unfold Document.getPrimaryElement
  have hfind : d.bodyIter.find? (fun e =>
      match e with
      | .Workflow _ => true
      | _ => false) = (d.bodyIter.filter isWorkflowElement).head? := by
    rw [find?_eq_head?_filter]
    congr 1
  rw [hfind]
  cases (d.bodyIter.filter isWorkflowElement).head? with
  | some w => rfl
  | none =>
    have hfun : (fun e =>
        match e with
        | DocumentElement.Task _ => true
        | _ => false) = isTaskElement := by
      funext e
      cases e <;> rfl
    rw [hfun]
    cases htasks : d.bodyIter.filter isTaskElement with
    | nil => rfl
    | cons t rest =>
      cases rest with
      | nil => rfl
      | cons t2 rest2 => simp [List.length]

/-- Well-formedness of the comment map: the `BTreeMap` keeps keys strictly
increasing. -/
def Comments.wf (c : Comments) : Prop :=
  List.Pairwise (· < ·) (c.entries.map Prod.fst)

/-- Model of `any` agrees with `find?` being successful. -/
theorem any_eq_find?_isSome (p : α → Bool) (l : List α) :
    l.any p = (l.find? p).isSome := by
  induction l with
  | nil => rfl
  | cons a t ih =>
    by_cases h : p a = true
    · simp [h, List.find?_cons_of_pos _ h]
    · have h' : p a = false := by simpa using h
      simp [h', List.find?_cons_of_neg _ h, ih]

/-- Model of `containsKey` agrees with `get` being successful. -/
theorem containsKey_eq_get_isSome (c : Comments) (line : Nat) :
    c.containsKey line = (c.get line).isSome := by
  unfold Comments.containsKey Comments.get
  rw [any_eq_find?_isSome]
  cases c.entries.find? (fun p => p.1 == line) <;> rfl

/-- Inserting at `line` makes lookup at `line` return the new value. -/
theorem find?_insertEntry_self (l : List (Nat × Anchor String)) (line : Nat)
    (v : Anchor String) :
    (Comments.insertEntry l line v).find? (fun p => p.1 == line) =
      some (line, v) := by
  induction l with
  | nil => simp [Comments.insertEntry, List.find?]
  | cons kx t ih =>
    obtain ⟨k, x⟩ := kx
    unfold Comments.insertEntry
    by_cases h1 : line < k
    · simp [h1, List.find?]
    · by_cases h2 : line = k
      · simp [h1, h2, List.find?]
      · have hk : ((k, x).1 == line) = false := by
          simp only [beq_eq_false_iff_ne]
          exact fun hh => h2 hh.symm
        simp only [if_neg h1, if_neg h2, List.find?_cons]
        simp [hk, ih]

/-- Every key of the inserted map is the new key or an old key. -/
theorem mem_keys_insertEntry (l : List (Nat × Anchor String)) (line : Nat)
    (v : Anchor String) (y : Nat)
    (hy : y ∈ (Comments.insertEntry l line v).map Prod.fst) :
    y = line ∨ y ∈ l.map Prod.fst := by
  induction l with
  | nil =>
    simp [Comments.insertEntry] at hy
    exact Or.inl hy
  | cons kx t ih =>
    obtain ⟨k, x⟩ := kx
    unfold Comments.insertEntry at hy
    by_cases h1 : line < k
    · simp only [if_pos h1, List.map_cons, List.mem_cons] at hy
      rcases hy with h | h | h
      · exact Or.inl h
      · exact Or.inr (by simp [h])
      · exact Or.inr (by simp [h])
    · by_cases h2 : line = k
      · simp only [if_neg h1, if_pos h2, List.map_cons, List.mem_cons] at hy
        rcases hy with h | h
        · exact Or.inl h
        · exact Or.inr (by simp [h])
      · simp only [if_neg h1, if_neg h2, List.map_cons, List.mem_cons] at hy
        rcases hy with h | h
        · exact Or.inr (by simp [h])
        · rcases ih h with h' | h'
          · exact Or.inl h'
          · exact Or.inr (by simp [h'])

/-- Sorted-insert preserves the strictly-increasing-keys invariant. -/
theorem pairwise_insertEntry (l : List (Nat × Anchor String)) (line : Nat)
    (v : Anchor String)
    (h : List.Pairwise (· < ·) (l.map Prod.fst)) :
    List.Pairwise (· < ·) ((Comments.insertEntry l line v).map Prod.fst) := by
  induction l with
  | nil => simp [Comments.insertEntry]
  | cons kx t ih =>
    obtain ⟨k, x⟩ := kx
    simp only [List.map_cons, List.pairwise_cons] at h
    obtain ⟨hk, ht⟩ := h
    unfold Comments.insertEntry
    by_cases h1 : line < k
    · simp only [if_pos h1, List.map_cons, List.pairwise_cons]
      refine ⟨?_, hk, ht⟩
      intro b hb
      rcases List.mem_cons.mp hb with rfl | hb2
      · exact h1
      · exact lt_trans h1 (hk b hb2)
    · by_cases h2 : line = k
      · simp only [if_neg h1, if_pos h2, List.map_cons, List.pairwise_cons]
        exact ⟨fun b hb => h2 ▸ hk b hb, ht⟩
      · have hkl : k < line := by omega
        simp only [if_neg h1, if_neg h2, List.map_cons, List.pairwise_cons]
        refine ⟨?_, ih ht⟩
        intro b hb
        rcases mem_keys_insertEntry t line v b hb with rfl | hb2
        · exact hkl
        · exact hk b hb2

/-- Claim C8: `Comments::try_insert` fails with `CommentRepeatedLine(line)`
exactly when the map already holds a comment for `line` (and then the map is
not modified; the error is returned before the insert); otherwise it
inserts so that `get line` returns the new comment; well-formedness, and
with it the at-most-one-comment-per-line invariant (`Nodup` keys), is
preserved. -/
theorem commentsTryInsert_confirmed (c : Comments) (line : Nat)
    (a : Anchor String) (h : Comments.wf c) :
    ((c.get line).isSome = true →
      c.tryInsert line a = .error (.CommentRepeatedLine line)) ∧
    (c.get line = none → ∃ cn, c.tryInsert line a = .ok cn ∧
      cn.get line = some a ∧ Comments.wf cn) ∧
    (c.entries.map Prod.fst).Nodup := by
  refine ⟨?_, ?_, ?_⟩
  · intro hs
    have hc : c.containsKey line = true := by
      rw [containsKey_eq_get_isSome, hs]
    unfold Comments.tryInsert
    rw [if_pos hc]
  · intro hn
    have hc : c.containsKey line = false := by
      rw [containsKey_eq_get_isSome, hn]
      rfl
    refine ⟨⟨Comments.insertEntry c.entries line a⟩, ?_, ?_, ?_⟩
    · unfold Comments.tryInsert
      rw [hc]
      rfl
    · unfold Comments.get
      rw [find?_insertEntry_self]
      rfl
    · exact pairwise_insertEntry c.entries line a h
  · exact h.imp (fun hlt => Nat.ne_of_lt hlt)

/-- Claim C8 (witness): inserting into the empty map at line 0 succeeds and
is retrievable. -/
theorem commentsTryInsert_witness :
    ∃ cn, Comments.empty.tryInsert 0
        ⟨"# c", Span.fromComponents 0 0 0 0 3 3⟩ = .ok cn ∧
      cn.get 0 = some ⟨"# c", Span.fromComponents 0 0 0 0 3 3⟩ ∧
      Comments.wf cn :=
  (commentsTryInsert_confirmed Comments.empty 0
    ⟨"# c", Span.fromComponents 0 0 0 0 3 3⟩ List.Pairwise.nil).2.1 rfl

/-- The number of unique-kind body elements with kind `k`. -/
def kindCount (k : String) (body : List (Anchor TaskElement)) : Nat :=
  (body.filter (fun e => taskMustBeUnique e.element && (e.element.kind == k))).length

theorem kindCount_cons (k : String) (e : Anchor TaskElement)
    (rest : List (Anchor TaskElement)) :
    kindCount k (e :: rest) =
      (if taskMustBeUnique e.element && (e.element.kind == k) then 1 else 0) +
        kindCount k rest := by
  by_cases h : (taskMustBeUnique e.element && (e.element.kind == k)) = true
  · simp only [kindCount, List.filter_cons, h, if_true, List.length_cons]
    omega
  · simp only [kindCount, List.filter_cons, h, if_false]
    simp at h
    simp [h]

/-- The uniqueness loop of `Task::validate` succeeds exactly when no unique
kind occurs twice, counting kinds already in `seen`. -/
theorem validateGo_ok_iff (name : String) (body : List (Anchor TaskElement)) :
    ∀ seen : List String,
      (∃ s, Task.validateGo name seen body = .ok s) ↔
        ∀ k, kindCount k body + (if k ∈ seen then 1 else 0) ≤ 1 := by
  induction body with
  | nil =>
    intro seen
    constructor
    · intro _ k
      simp only [kindCount, List.filter_nil, List.length_nil, Nat.zero_add]
      split <;> omega
    · intro _
      exact ⟨seen, rfl⟩
  | cons e rest ih =>
    intro seen
    by_cases hu : taskMustBeUnique e.element = true
    · by_cases hs : e.element.kind ∈ seen
      · constructor
        · rintro ⟨s, hgo⟩
          simp [Task.validateGo, hu, hs] at hgo
        · intro hk
          exfalso
          have h1 := hk e.element.kind
          rw [kindCount_cons] at h1
          simp [hu, hs] at h1
      · have heq : Task.validateGo name seen (e :: rest) =
            Task.validateGo name (e.element.kind :: seen) rest := by
          simp [Task.validateGo, hu, hs]
        rw [heq, ih (e.element.kind :: seen)]
        constructor
        · intro h k
          have h1 := h k
          rw [kindCount_cons]
          by_cases hk : e.element.kind = k
          · subst hk
            simp only [List.mem_cons, true_or, if_true] at h1
            simp [hu, hs]
            omega
          · have hbk : (e.element.kind == k) = false := by
              simp [hk]
            have hck : (k ∈ e.element.kind :: seen) ↔ k ∈ seen := by
              simp only [List.mem_cons]
              constructor
              · rintro (rfl | hin)
                · exact absurd rfl hk
                · exact hin
              · exact Or.inr
            simp only [hck] at h1
            simp only [hbk, Bool.and_false, Bool.false_eq_true, if_false]
            omega
        · intro h k
          have h1 := h e.element.kind
          have h2 := h k
          rw [kindCount_cons] at h2
          by_cases hk : e.element.kind = k
          · subst hk
            rw [kindCount_cons] at h1
            simp only [List.mem_cons, true_or, if_true]
            simp only [hu, beq_self_eq_true, Bool.and_self, Bool.true_and,
              if_true, hs, if_false] at h1 ⊢
            omega
          · have hbk : (e.element.kind == k) = false := by
              simp [hk]
            have hck : (k ∈ e.element.kind :: seen) ↔ k ∈ seen := by
              simp only [List.mem_cons]
              constructor
              · rintro (rfl | hin)
                · exact absurd rfl hk
                · exact hin
              · exact Or.inr
            simp only [hck]
            simp only [hbk, Bool.and_false, Bool.false_eq_true, if_false] at h2
            omega
    · have hu2 : taskMustBeUnique e.element = false := by
        simpa using hu
      have heq : Task.validateGo name seen (e :: rest) =
          Task.validateGo name seen rest := by
        simp [Task.validateGo, hu2]
      rw [heq, ih seen]
      have hcnt : ∀ k, kindCount k (e :: rest) = kindCount k rest := by
        intro k
        rw [kindCount_cons]
        simp [hu2]
      constructor
      · intro h k
        rw [hcnt k]
        exact h k
      · intro h k
        have := h k
        rw [hcnt k] at this
        exact this

/-- On success, the accumulated `seen` set holds a kind exactly when it was
already in `seen` or occurs in the body. -/
theorem validateGo_ok_mem (name : String) (body : List (Anchor TaskElement)) :
    ∀ (seen : List String) (s : List String),
      Task.validateGo name seen body = .ok s →
      ∀ k, k ∈ s ↔ (k ∈ seen ∨ 1 ≤ kindCount k body) := by
  induction body with
  | nil =>
    intro seen s hgo k
    have hss : seen = s := by
      simpa [Task.validateGo] using hgo
    subst hss
    simp [kindCount]
  | cons e rest ih =>
    intro seen s hgo k
    by_cases hu : taskMustBeUnique e.element = true
    · by_cases hs : e.element.kind ∈ seen
      · simp [Task.validateGo, hu, hs] at hgo
      · have heq : Task.validateGo name seen (e :: rest) =
            Task.validateGo name (e.element.kind :: seen) rest := by
          simp [Task.validateGo, hu, hs]
        rw [heq] at hgo
        have hB := ih (e.element.kind :: seen) s hgo k
        rw [kindCount_cons]
        by_cases hk : e.element.kind = k
        · subst hk
          simp only [List.mem_cons, true_or] at hB
          simp only [hu, beq_self_eq_true, Bool.and_self, if_true]
          constructor
          · intro _
            right
            omega
          · intro _
            exact hB.mpr trivial
        · have hbk : (e.element.kind == k) = false := by
            simp [hk]
          have hck : (k ∈ e.element.kind :: seen) ↔ k ∈ seen := by
            simp only [List.mem_cons]
            constructor
            · rintro (rfl | hin)
              · exact absurd rfl hk
              · exact hin
            · exact Or.inr
          rw [hck] at hB
          simp only [hbk, Bool.and_false, Bool.false_eq_true, if_false]
          simpa using hB
    · have hu2 : taskMustBeUnique e.element = false := by
        simpa using hu
      have heq : Task.validateGo name seen (e :: rest) =
          Task.validateGo name seen rest := by
        simp [Task.validateGo, hu2]
      rw [heq] at hgo
      have hB := ih seen s hgo k
      rw [kindCount_cons]
      simp only [hu2, Bool.false_and, Bool.false_eq_true, if_false]
      simpa using hB

/-- Model of `kindCount` agrees with `elemCount` for a matching predicate. -/
theorem kindCount_eq_elemCount (k : String) (p : TaskElement → Bool)
    (hp : ∀ el, (taskMustBeUnique el && (el.kind == k)) = p el)
    (body : List (Anchor TaskElement)) :
    kindCount k body = elemCount p body := by
  unfold kindCount elemCount
  congr 1
  apply List.filter_congr
  intro e _
  exact hp e.element

/-- A kind string other than the six unique kinds never occurs. -/
theorem kindCount_eq_zero (k : String) (body : List (Anchor TaskElement))
    (h1 : k ≠ "input") (h2 : k ≠ "output") (h3 : k ≠ "command")
    (h4 : k ≠ "runtime") (h5 : k ≠ "meta") (h6 : k ≠ "parameter_meta") :
    kindCount k body = 0 := by
  induction body with
  | nil => rfl
  | cons e rest ih =>
    rw [kindCount_cons, ih]
    have hp : (taskMustBeUnique e.element && (e.element.kind == k)) = false := by
      cases e.element with
      | Input i =>
        simp [taskMustBeUnique, TaskElement.kind]
        exact fun hh => h1 hh.symm
      | Output o =>
        simp [taskMustBeUnique, TaskElement.kind]
        exact fun hh => h2 hh.symm
      | Declaration d => rfl
      | Command c =>
        simp [taskMustBeUnique, TaskElement.kind]
        exact fun hh => h3 hh.symm
      | Runtime r =>
        simp [taskMustBeUnique, TaskElement.kind]
        exact fun hh => h4 hh.symm
      | Meta m =>
        simp [taskMustBeUnique, TaskElement.kind]
        exact fun hh => h5 hh.symm
      | ParameterMeta p =>
        simp [taskMustBeUnique, TaskElement.kind]
        exact fun hh => h6 hh.symm
    rw [hp]
    rfl

/-- A failing uniqueness loop always reports `TaskRepeatedElement` for a kind
that indeed occurs twice (counting `seen`). -/
theorem validateGo_error_repeated (name : String)
    (body : List (Anchor TaskElement)) :
    ∀ (seen : List String) (e : ModelError),
      Task.validateGo name seen body = .error e →
      ∃ k, e = ModelError.TaskRepeatedElement name k ∧
        2 ≤ kindCount k body + (if k ∈ seen then 1 else 0) := by
  induction body with
  | nil =>
    intro seen e hgo
    simp [Task.validateGo] at hgo
  | cons el rest ih =>
    intro seen e hgo
    by_cases hu : taskMustBeUnique el.element = true
    · by_cases hs : el.element.kind ∈ seen
      · have he : e = ModelError.TaskRepeatedElement name el.element.kind := by
          have := hgo
          simp [Task.validateGo, hu, hs] at this
          exact this.symm
        refine ⟨el.element.kind, he, ?_⟩
        rw [kindCount_cons]
        simp [hu, hs]
      · have heq : Task.validateGo name seen (el :: rest) =
            Task.validateGo name (el.element.kind :: seen) rest := by
          simp [Task.validateGo, hu, hs]
        rw [heq] at hgo
        obtain ⟨k, he, hcnt⟩ := ih (el.element.kind :: seen) e hgo
        refine ⟨k, he, ?_⟩
        rw [kindCount_cons]
        by_cases hk : el.element.kind = k
        · subst hk
          simp only [List.mem_cons, true_or, if_true] at hcnt
          simp only [hu, beq_self_eq_true, Bool.and_self, if_true, hs,
            if_false]
          omega
        · have hbk : (el.element.kind == k) = false := by
            simp [hk]
          have hck : (k ∈ el.element.kind :: seen) ↔ k ∈ seen := by
            simp only [List.mem_cons]
            constructor
            · rintro (rfl | hin)
              · exact absurd rfl hk
              · exact hin
            · exact Or.inr
          simp only [hck] at hcnt
          simp only [hbk, Bool.and_false, Bool.false_eq_true, if_false]
          omega
    · have hu2 : taskMustBeUnique el.element = false := by
        simpa using hu
      have heq : Task.validateGo name seen (el :: rest) =
          Task.validateGo name seen rest := by
        simp [Task.validateGo, hu2]
      rw [heq] at hgo
      obtain ⟨k, he, hcnt⟩ := ih seen e hgo
      refine ⟨k, he, ?_⟩
      rw [kindCount_cons]
      simp only [hu2, Bool.false_and, Bool.false_eq_true, if_false]
      omega

/-- Claim C5: `Task::validate` succeeds exactly when the body holds exactly
one Command and at most one each of Input, Output, Runtime, Meta and
ParameterMeta (Declarations may repeat freely). -/
theorem taskValidate_confirmed (t : Task) :
    (t.validate = .ok () ↔
      elemCount isCommand t.body = 1 ∧ elemCount isInput t.body ≤ 1 ∧
      elemCount isOutput t.body ≤ 1 ∧ elemCount isRuntime t.body ≤ 1 ∧
      elemCount isMeta t.body ≤ 1 ∧ elemCount isParameterMeta t.body ≤ 1) ∧
    ((∀ k, kindCount k t.body ≤ 1) → elemCount isCommand t.body = 0 →
      t.validate = .error (.TaskMissingCommand t.name.element)) ∧
    ((∃ k, 2 ≤ kindCount k t.body) →
      ∃ k, 2 ≤ kindCount k t.body ∧
        t.validate = .error (.TaskRepeatedElement t.name.element k)) := by
  have hval : t.validate = .ok () ↔
      ∃ s, Task.validateGo t.name.element [] t.body = .ok s ∧
        "command" ∈ s := by
    unfold Task.validate
    cases hgo : Task.validateGo t.name.element [] t.body with
    | error err => simp
    | ok s =>
      by_cases hc : "command" ∈ s
      · simp [hc]
      · simp [hc]
  have hchar : t.validate = .ok () ↔
      (∀ k, kindCount k t.body ≤ 1) ∧ 1 ≤ kindCount "command" t.body := by
    rw [hval]
    constructor
    · rintro ⟨s, hgo, hcmd⟩
      constructor
      · intro k
        have h := (validateGo_ok_iff t.name.element t.body []).mp ⟨s, hgo⟩ k
        simpa using h
      · have h := (validateGo_ok_mem t.name.element t.body [] s hgo
          "command").mp hcmd
        rcases h with h | h
        · simp at h
        · exact h
    · rintro ⟨hle, hcmd⟩
      have hex : ∃ s, Task.validateGo t.name.element [] t.body = .ok s := by
        rw [validateGo_ok_iff]
        intro k
        simpa using hle k
      obtain ⟨s, hgo⟩ := hex
      refine ⟨s, hgo, ?_⟩
      exact (validateGo_ok_mem t.name.element t.body [] s hgo
        "command").mpr (Or.inr hcmd)
  have eqCommand := kindCount_eq_elemCount "command" isCommand
    (fun el => by cases el <;> rfl) t.body
  have eqInput := kindCount_eq_elemCount "input" isInput
    (fun el => by cases el <;> rfl) t.body
  have eqOutput := kindCount_eq_elemCount "output" isOutput
    (fun el => by cases el <;> rfl) t.body
  have eqRuntime := kindCount_eq_elemCount "runtime" isRuntime
    (fun el => by cases el <;> rfl) t.body
  have eqMeta := kindCount_eq_elemCount "meta" isMeta
    (fun el => by cases el <;> rfl) t.body
  have eqPMeta := kindCount_eq_elemCount "parameter_meta" isParameterMeta
    (fun el => by cases el <;> rfl) t.body
  refine ⟨?_, ?_, ?_⟩
  · rw [hchar]
    constructor
    · rintro ⟨hle, hge⟩
      have hcmd := hle "command"
      rw [eqCommand] at hcmd hge
      refine ⟨by omega, ?_, ?_, ?_, ?_, ?_⟩
      · rw [← eqInput]; exact hle "input"
      · rw [← eqOutput]; exact hle "output"
      · rw [← eqRuntime]; exact hle "runtime"
      · rw [← eqMeta]; exact hle "meta"
      · rw [← eqPMeta]; exact hle "parameter_meta"
    · rintro ⟨h1, h2, h3, h4, h5, h6⟩
      constructor
      · intro k
        by_cases k1 : k = "input"
        · subst k1; rw [eqInput]; exact h2
        by_cases k2 : k = "output"
        · subst k2; rw [eqOutput]; exact h3
        by_cases k3 : k = "command"
        · subst k3; rw [eqCommand]; omega
        by_cases k4 : k = "runtime"
        · subst k4; rw [eqRuntime]; exact h4
        by_cases k5 : k = "meta"
        · subst k5; rw [eqMeta]; exact h5
        by_cases k6 : k = "parameter_meta"
        · subst k6; rw [eqPMeta]; exact h6
        rw [kindCount_eq_zero k t.body k1 k2 k3 k4 k5 k6]
        omega
      · rw [eqCommand]
        omega
  · intro hle hcmd0
    obtain ⟨s, hgo⟩ := (validateGo_ok_iff t.name.element t.body []).mpr
      (by intro k; simpa using hle k)
    have hnm : "command" ∉ s := by
      intro hmem
      rcases (validateGo_ok_mem t.name.element t.body [] s hgo
        "command").mp hmem with hin | hone
      · simp at hin
      · rw [eqCommand] at hone
        omega
    unfold Task.validate
    rw [hgo]
    have hcb : ("command" ∈ s) = False := by
      simp [hnm]
    simp [hcb]
  · rintro ⟨k0, hk0⟩
    cases hgo : Task.validateGo t.name.element [] t.body with
    | ok s =>
      exfalso
      have := (validateGo_ok_iff t.name.element t.body []).mp ⟨s, hgo⟩ k0
      simp at this
      omega
    | error e =>
      obtain ⟨k, he, hcnt⟩ := validateGo_error_repeated t.name.element t.body
        [] e hgo
      refine ⟨k, by simpa using hcnt, ?_⟩
      unfold Task.validate
      rw [hgo, he]

/-- Model of `Ok`-ness of a validation result. -/
def isOkB : Except ModelError Unit → Bool
  | .ok _ => true
  | .error _ => false

/-- Whether every Task and Workflow in a document body passes its own
validation (the side condition of claim C6). -/
def subElementsValid (body : List (Anchor DocumentElement)) : Bool :=
  body.all (fun e =>
    match e.element with
    | .Task t => isOkB t.validate
    | .Workflow w => isOkB w.validate
    | _ => true)

/-- Whether a document element counts toward `element_count`
(Struct, Task or Workflow). -/
def isCountedElement : DocumentElement → Bool
  | .Struct _ | .Task _ | .Workflow _ => true
  | _ => false

/-- The number of Struct/Task/Workflow elements of a body. -/
def docElementCount (body : List (Anchor DocumentElement)) : Nat :=
  (body.filter (fun e => isCountedElement e.element)).length

/-- The number of Workflow elements of a body. -/
def docWorkflowCount (body : List (Anchor DocumentElement)) : Nat :=
  (body.filter (fun e => isWorkflowElement e.element)).length

/-- Whether a body element is an Import. -/
def isImportAnchor (e : Anchor DocumentElement) : Bool :=
  match e.element with
  | .Import _ => true
  | _ => false

/-- When all nested validations succeed, the counting loop of
`Document::validate` returns the accumulated counts. -/
theorem documentValidateGo_ok (body : List (Anchor DocumentElement))
    (h : subElementsValid body = true) :
    ∀ ec wc, Document.validateGo body ec wc =
      .ok (ec + docElementCount body, wc + docWorkflowCount body) := by
  induction body with
  | nil =>
    intro ec wc
    simp [Document.validateGo, docElementCount, docWorkflowCount]
  | cons e rest ih =>
    intro ec wc
    simp only [subElementsValid, List.all_cons, Bool.and_eq_true] at h
    obtain ⟨he, hrest⟩ := h
    have ih2 := ih hrest
    cases hel : e.element with
    | Task t =>
      rw [hel] at he
      have he2 : isOkB t.validate = true := he
      have hv : t.validate = .ok () := by
        cases hv2 : t.validate with
        | ok u => cases u; rfl
        | error err => rw [hv2] at he2; simp [isOkB] at he2
      simp only [Document.validateGo, hel, hv, ih2]
      have h1 : docElementCount (e :: rest) = docElementCount rest + 1 := by
        simp [docElementCount, List.filter_cons, isCountedElement, hel]
      have h2 : docWorkflowCount (e :: rest) = docWorkflowCount rest := by
        simp [docWorkflowCount, List.filter_cons, isWorkflowElement, hel]
      rw [h1, h2]
      simp only [Except.ok.injEq, Prod.mk.injEq]
      exact ⟨by omega, trivial⟩
    | Workflow w =>
      rw [hel] at he
      have he2 : isOkB w.validate = true := he
      have hv : w.validate = .ok () := by
        cases hv2 : w.validate with
        | ok u => cases u; rfl
        | error err => rw [hv2] at he2; simp [isOkB] at he2
      simp only [Document.validateGo, hel, hv, ih2]
      have h1 : docElementCount (e :: rest) = docElementCount rest + 1 := by
        simp [docElementCount, List.filter_cons, isCountedElement, hel]
      have h2 : docWorkflowCount (e :: rest) = docWorkflowCount rest + 1 := by
        simp [docWorkflowCount, List.filter_cons, isWorkflowElement, hel]
      rw [h1, h2]
      simp only [Except.ok.injEq, Prod.mk.injEq]
      exact ⟨by omega, by omega⟩
    | Struct st =>
      simp only [Document.validateGo, hel, ih2]
      have h1 : docElementCount (e :: rest) = docElementCount rest + 1 := by
        simp [docElementCount, List.filter_cons, isCountedElement, hel]
      have h2 : docWorkflowCount (e :: rest) = docWorkflowCount rest := by
        simp [docWorkflowCount, List.filter_cons, isWorkflowElement, hel]
      rw [h1, h2]
      simp only [Except.ok.injEq, Prod.mk.injEq]
      exact ⟨by omega, trivial⟩
    | Import im =>
      simp only [Document.validateGo, hel, ih2]
      have h1 : docElementCount (e :: rest) = docElementCount rest := by
        simp [docElementCount, List.filter_cons, isCountedElement, hel]
      have h2 : docWorkflowCount (e :: rest) = docWorkflowCount rest := by
        simp [docWorkflowCount, List.filter_cons, isWorkflowElement, hel]
      rw [h1, h2]

/-- Workflows are counted elements, so the workflow count never exceeds the
element count. -/
theorem docWorkflowCount_le (body : List (Anchor DocumentElement)) :
    docWorkflowCount body ≤ docElementCount body := by
  induction body with
  | nil => exact Nat.le_refl 0
  | cons e rest ih =>
    cases hel : e.element with
    | Workflow w =>
      have h1 : docElementCount (e :: rest) = docElementCount rest + 1 := by
        simp [docElementCount, List.filter_cons, isCountedElement, hel]
      have h2 : docWorkflowCount (e :: rest) = docWorkflowCount rest + 1 := by
        simp [docWorkflowCount, List.filter_cons, isWorkflowElement, hel]
      omega
    | Task t =>
      have h1 : docElementCount (e :: rest) = docElementCount rest + 1 := by
        simp [docElementCount, List.filter_cons, isCountedElement, hel]
      have h2 : docWorkflowCount (e :: rest) = docWorkflowCount rest := by
        simp [docWorkflowCount, List.filter_cons, isWorkflowElement, hel]
      omega
    | Struct st =>
      have h1 : docElementCount (e :: rest) = docElementCount rest + 1 := by
        simp [docElementCount, List.filter_cons, isCountedElement, hel]
      have h2 : docWorkflowCount (e :: rest) = docWorkflowCount rest := by
        simp [docWorkflowCount, List.filter_cons, isWorkflowElement, hel]
      omega
    | Import im =>
      have h1 : docElementCount (e :: rest) = docElementCount rest := by
        simp [docElementCount, List.filter_cons, isCountedElement, hel]
      have h2 : docWorkflowCount (e :: rest) = docWorkflowCount rest := by
        simp [docWorkflowCount, List.filter_cons, isWorkflowElement, hel]
      omega

/-- An all-Imports body has no counted elements. -/
theorem docElementCount_imports (body : List (Anchor DocumentElement))
    (h : body.all isImportAnchor = true) :
    docElementCount body = 0 := by
  induction body with
  | nil => rfl
  | cons e rest ih =>
    simp only [List.all_cons, Bool.and_eq_true] at h
    obtain ⟨he, hrest⟩ := h
    simp only [docElementCount, List.filter_cons]
    cases hel : e.element with
    | Import im =>
      simp only [isCountedElement]
      exact ih hrest
    | Struct st => simp [isImportAnchor, hel] at he
    | Task t => simp [isImportAnchor, hel] at he
    | Workflow w => simp [isImportAnchor, hel] at he

/-- Claim C6: given that every contained Task and Workflow passes its own
validation, `Document::validate` succeeds exactly when the body holds at
least one Struct/Task/Workflow element and at most one Workflow; an
all-Imports body fails with `DocumentIncomplete`, and a body with two or
more Workflows fails with `DocumentMultipleWorkflows`. -/
theorem documentValidate_confirmed (d : Document)
    (h : subElementsValid d.body = true) :
    (d.validate = .ok () ↔
      1 ≤ docElementCount d.body ∧ docWorkflowCount d.body ≤ 1) ∧
    (d.body.all isImportAnchor = true →
      d.validate = .error .DocumentIncomplete) ∧
    (2 ≤ docWorkflowCount d.body →
      d.validate = .error .DocumentMultipleWorkflows) := by
  have hgo := documentValidateGo_ok d.body h 0 0
  simp only [Nat.zero_add] at hgo
  refine ⟨?_, ?_, ?_⟩
  · unfold Document.validate
    rw [hgo]
    by_cases h1 : 0 < docElementCount d.body
    · by_cases h2 : docWorkflowCount d.body ≤ 1
      · simp only [if_pos h1, if_pos h2]
        simp only [true_iff]
        omega
      · simp only [if_pos h1, if_neg h2]
        constructor
        · intro hh
          cases hh
        · intro hh
          omega
    · simp only [if_neg h1]
      constructor
      · intro hh
        cases hh
      · intro hh
        omega
  · intro himp
    have h0 := docElementCount_imports d.body himp
    unfold Document.validate
    rw [hgo]
    simp [h0]
  · intro h2
    have h1 : 0 < docElementCount d.body := by
      have := docWorkflowCount_le d.body
      omega
    unfold Document.validate
    rw [hgo]
    have h3 : ¬ docWorkflowCount d.body ≤ 1 := by omega
    simp [h1, h3]

/-- A minimal valid task used by witnesses: one Command element. -/
def witnessTask : Task :=
  { name := ⟨"t", Span.fromComponents 0 5 5 0 6 6⟩,
    body := [⟨.Command ⟨[]⟩, Span.fromComponents 0 8 8 0 20 20⟩] }

/-- A minimal document: a single valid Task. -/
def witnessDocument : Document :=
  { source := .Unknown,
    version := ⟨⟨⟨.V1_1, Span.fromComponents 0 0 0 0 11 11⟩⟩,
      Span.fromComponents 0 0 0 0 11 11⟩,
    body := [⟨.Task witnessTask, Span.fromComponents 1 0 12 1 20 32⟩],
    comments := Comments.empty }

/-- Claim C6 (witness): the characterization applied to the one-task
document, whose side condition holds by evaluation. -/
theorem documentValidate_witness :
    (witnessDocument.validate = .ok () ↔
      1 ≤ docElementCount witnessDocument.body ∧
        docWorkflowCount witnessDocument.body ≤ 1) ∧
    (witnessDocument.body.all isImportAnchor = true →
      witnessDocument.validate = .error .DocumentIncomplete) ∧
    (2 ≤ docWorkflowCount witnessDocument.body →
      witnessDocument.validate = .error .DocumentMultipleWorkflows) :=
  documentValidate_confirmed witnessDocument rfl

/-- A task with an empty body (no Command), for the C5 witness. -/
def taskNoCommand : Task :=
  { name := ⟨"t2", Span.fromComponents 0 5 5 0 7 7⟩, body := [] }

/-- A task with two Input elements, for the C5 witness. -/
def taskTwoInputs : Task :=
  { name := ⟨"t3", Span.fromComponents 0 5 5 0 7 7⟩,
    body := [⟨.Input ⟨[]⟩, Span.fromComponents 1 0 8 1 10 18⟩,
             ⟨.Input ⟨[]⟩, Span.fromComponents 2 0 19 2 10 29⟩] }

/-- Claim C5 (witness): the missing-command and repeated-element conjuncts
applied to concrete tasks. -/
theorem taskValidate_witness :
    taskNoCommand.validate = .error (.TaskMissingCommand "t2") ∧
    (∃ k, 2 ≤ kindCount k taskTwoInputs.body ∧
      taskTwoInputs.validate = .error (.TaskRepeatedElement "t3" k)) :=
  ⟨(taskValidate_confirmed taskNoCommand).2.1
      (fun k => by simp [kindCount, taskNoCommand]) rfl,
   (taskValidate_confirmed taskTwoInputs).2.2 ⟨"input", by decide⟩⟩

/-- The subset of the pest `Rule` enum referenced by the lowering code under
src/src/parsers/pest (the grammar file wdl.pest that generates the full enum
is not part of src/); `other` stands for any further variant. -/
inductive Rule where
  | COMMENT
  | EOI
  | identifier
  | qualified_identifier
  | call
  | call_alias
  | call_inputs
  | call_input
  | other (name : String)
deriving DecidableEq, Repr

/-- A pest `Pair`: its rule, source text, span, and inner pairs. -/
inductive PestPair where
  | mk (rule : Rule) (text : String) (span : Span) (children : List PestPair)

def PestPair.rule : PestPair → Rule
  | .mk r _ _ _ => r

def PestPair.text : PestPair → String
  | .mk _ t _ _ => t

def PestPair.span : PestPair → Span
  | .mk _ _ sp _ => sp

/-- Model of `Pair::into_inner` (the inner pairs). -/
def PestPair.children : PestPair → List PestPair
  | .mk _ _ _ cs => cs

/-- Model of `PestNodes::get_next_pair` (src/src/parsers/pest/node.rs): advance over
the remaining pairs, inserting COMMENT pairs into the comment map (failing
on a repeated line), skipping EOI, and returning the first other pair. The
iterator state is the list of remaining pairs; the shared comment map is
threaded. -/
def getNextPair : List PestPair → Comments →
    Except ModelError (Option PestPair × List PestPair × Comments)
  | [], c => .ok (none, [], c)
  | p :: rest, c =>
    match p.rule with
    | .COMMENT =>
      match c.tryInsert p.span.start.line ⟨p.text, p.span⟩ with
      | .error e => .error e
      | .ok c2 => getNextPair rest c2
    | .EOI => getNextPair rest c
    | _ => .ok (some p, rest, c)

/-- Model of `get_next_pair` strictly consumes input when it yields a pair. -/
theorem getNextPair_some_length {pairs : List PestPair} {c : Comments}
    {p : PestPair} {rest : List PestPair} {c2 : Comments}
    (h : getNextPair pairs c = .ok (some p, rest, c2)) :
    rest.length < pairs.length := by
  induction pairs generalizing c with
  | nil => simp [getNextPair] at h
  | cons q t ih =>
    simp only [getNextPair] at h
    split at h
    · split at h
      · simp at h
      · exact Nat.lt_succ_of_lt (ih h)
    · exact Nat.lt_succ_of_lt (ih h)
    · cases h
      simp

/-- Outcome of running a destructor. -/
inductive DropOutcome where
  | ok
  | panicked
deriving DecidableEq, Repr

/-- Model of `impl Drop for PestNodes` (src/src/parsers/pest/node.rs lines 201-212):
loop `get_next_pair` until it returns `Ok(None)` — or until it returns an
`Err`, which only breaks the loop (the error is swallowed). Every branch
terminates normally: the model returns `DropOutcome.ok` in all cases,
together with the comment map as harvested so far. -/
def pestDropLoop (pairs : List PestPair) (c : Comments) :
    DropOutcome × Comments :=
  match h : getNextPair pairs c with
  | .ok (some _, rest, c2) => pestDropLoop rest c2
  | .ok (none, _, c2) => (DropOutcome.ok, c2)
  | .error _ => (DropOutcome.ok, c)
termination_by pairs.length
decreasing_by exact getNextPair_some_length h

/-- Model of `PestNodes::peek_rule`: the rule of the next raw pair (comments are not
skipped by peeking). -/
def peekRule (pairs : List PestPair) : Option Rule :=
  pairs.head?.map PestPair.rule

/-- Model of `PestNodes::next_node`: like `next` but an error when exhausted. -/
def pestNextNode (pairs : List PestPair) (c : Comments) :
    Except ModelError (PestPair × List PestPair × Comments) :=
  match getNextPair pairs c with
  | .ok (some p, rest, c2) => .ok (p, rest, c2)
  | .ok (none, _, _) =>
    .error (ModelError.parser "A next Pair was expected but is missing")
  | .error e => .error e

/-- The `map(..).collect()` pattern over a `PestNodes` iterator
(`collect_anchors`, `collect_anchors_with_inner_spans`, and the inline maps):
repeatedly take the next non-comment pair and convert it, propagating the
first error. -/
def pestCollect (conv : PestPair → Comments → Except ModelError (α × Comments)) :
    List PestPair → Comments → Except ModelError (List α × Comments)
  | pairs, c =>
    match h : getNextPair pairs c with
    | .ok (some p, rest, c2) =>
      match conv p c2 with
      | .ok (a, c3) =>
        match pestCollect conv rest c3 with
        | .ok (tl, c4) => .ok (a :: tl, c4)
        | .error e => .error e
      | .error e => .error e
    | .ok (none, _, c2) => .ok ([], c2)
    | .error e => .error e
termination_by pairs => pairs.length
decreasing_by exact getNextPair_some_length h

/-- Model of `impl InnerSpan for Vec<Anchor<T>>` (src/model.rs). -/
def listAnchorInnerSpan : List (Anchor α) → Option Span
  | [] => none
  | [a] => some a.span
  | a :: rest =>
    match rest.getLast? with
    | some b => some (Span.fromRange a.span b.span)
    | none => none

/-- Model of `QualifiedIdentifier::get_inner_span`. -/
def QualifiedIdentifier.getInnerSpan (qi : QualifiedIdentifier) : Option Span :=
  listAnchorInnerSpan qi.parts

/-- Model of `CallInput::get_inner_span`. -/
def CallInput.getInnerSpan (ci : CallInput) : Option Span :=
  match ci.expression with
  | some e => some (Span.fromRange ci.name.span e.span)
  | none => some ci.name.span

/-- Model of `try_into_anchor_with_inner_span`: wrap an element in an anchor at its
inner span, or fail as the source does when there is none. -/
def anchorWithInnerSpan (el : α) (inner : Option Span) :
    Except ModelError (Anchor α) :=
  match inner with
  | some sp => .ok ⟨el, sp⟩
  | none => .error (ModelError.parser "element has no inner span")

/-- Trailing-whitespace trimming (`str::trim_end`), on character lists. -/
def trimRightList (l : List Char) : List Char :=
  (l.reverse.dropWhile Char.isWhitespace).reverse

/-- Model of `impl TryFrom<PestNode> for QualifiedIdentifier`
(src/src/parsers/pest/workflow.rs): map the inner pairs to their
right-trimmed text, trimming the span by the amount of removed whitespace. -/
def pestQualifiedIdentifierFrom (node : PestPair) (c : Comments) :
    Except ModelError (QualifiedIdentifier × Comments) :=
  match pestCollect (fun p c2 =>
      let lt := trimRightList p.text.toList
      let trimmed := String.mk lt
      let ws := p.text.toList.length - lt.length
      let sp := if ws > 0 then p.span.trimEnd ws else p.span
      .ok ((⟨trimmed, sp⟩ : Anchor String), c2)) node.children c with
  | .ok (parts, c2) => .ok (⟨parts⟩, c2)
  | .error e => .error e

/-- Partial embedding of `try_into_expression_anchor`
(src/src/parsers/pest/expressions.rs): only the `identifier` leaf is
modelled — no claim exercises expression lowering. -/
def pestExpressionAnchorFrom (node : PestPair) (c : Comments) :
    Except ModelError (Anchor Expression × Comments) :=
  match node.rule with
  | .identifier => .ok (⟨.Identifier node.text, node.span⟩, c)
  | _ => .error (ModelError.parser "expression production not modelled")

/-- Model of `impl TryFrom<PestNode> for CallInput` (src/src/parsers/pest/workflow.rs):
a name, then an optional expression; the iterator over the node's children
is dropped at scope end (draining remaining comments). -/
def pestCallInputFrom (node : PestPair) (c : Comments) :
    Except ModelError (CallInput × Comments) :=
  match pestNextNode node.children c with
  | .error e => .error e
  | .ok (nameNode, rest, c2) =>
    let name : Anchor String := ⟨nameNode.text, nameNode.span⟩
    match getNextPair rest c2 with
    | .error e => .error e
    | .ok (none, rest2, c3) =>
      let (_, c4) := pestDropLoop rest2 c3
      .ok (⟨name, none⟩, c4)
    | .ok (some exprNode, rest2, c3) =>
      match pestExpressionAnchorFrom exprNode c3 with
      | .error e => .error e
      | .ok (expr, c4) =>
        let (_, c5) := pestDropLoop rest2 c4
        .ok (⟨name, some expr⟩, c5)

/-- A `CallInput` wrapped at its inner span (one step of
`collect_anchors_with_inner_spans`). -/
def pestCallInputAnchorFrom (p : PestPair) (c : Comments) :
    Except ModelError (Anchor CallInput × Comments) :=
  match pestCallInputFrom p c with
  | .error e => .error e
  | .ok (ci, c2) =>
    match anchorWithInnerSpan ci ci.getInnerSpan with
    | .ok a => .ok (a, c2)
    | .error e => .error e

/-- Model of `impl TryFrom<PestNode> for Call` (src/src/parsers/pest/workflow.rs
lines 52-80): target from the first inner pair; an alias if the next raw
rule is `call_alias` (its single inner pair, the temporary iterator dropped);
inputs collected if the next raw rule is `call_inputs`, else `None`; the
outer iterator is dropped at function end. -/
def pestCallFrom (node : PestPair) (c : Comments) :
    Except ModelError (Call × Comments) :=
  match pestNextNode node.children c with
  | .error e => .error e
  | .ok (targetNode, inner1, c1) =>
  match pestQualifiedIdentifierFrom targetNode c1 with
  | .error e => .error e
  | .ok (qi, c2) =>
  match anchorWithInnerSpan qi qi.getInnerSpan with
  | .error e => .error e
  | .ok target =>
  match (match peekRule inner1 with
    | some Rule.call_alias =>
      match pestNextNode inner1 c2 with
      | .error e => .error e
      | .ok (aliasNode, inner2, c3) =>
        match pestNextNode aliasNode.children c3 with
        | .error e => .error e
        | .ok (innerNode, aliasRest, c4) =>
          let (_, c5) := pestDropLoop aliasRest c4
          .ok (some (⟨innerNode.text, innerNode.span⟩ : Anchor String),
            inner2, c5)
    | _ => .ok (none, inner1, c2) :
      Except ModelError (Option (Anchor String) × List PestPair × Comments)) with
  | .error e => .error e
  | .ok (aliasOpt, inner2, c5) =>
  match peekRule inner2 with
  | some Rule.call_inputs =>
    match pestNextNode inner2 c5 with
    | .error e => .error e
    | .ok (inputsNode, inner3, c6) =>
      match pestCollect pestCallInputAnchorFrom inputsNode.children c6 with
      | .error e => .error e
      | .ok (ins, c7) =>
        let (_, c8) := pestDropLoop inner3 c7
        .ok ({ target := target, «alias» := aliasOpt, inputs := some ins }, c8)
  | _ =>
    let (_, c8) := pestDropLoop inner2 c5
    .ok ({ target := target, «alias» := aliasOpt, inputs := none }, c8)

/-- A tree-sitter node (src/src/parsers/tree_sitter/node.rs wraps
`ts::Node`): kind, optional field name, the error/missing/extra flags the
cursor inspects, source text and span, and child nodes. -/
inductive TSNodeData where
  | mk (kind : String) (field : Option String) (isError : Bool)
      (isMissing : Bool) (isExtra : Bool) (text : String) (span : Span)
      (children : List TSNodeData)

def TSNodeData.kind : TSNodeData → String
  | .mk k _ _ _ _ _ _ _ => k

def TSNodeData.field : TSNodeData → Option String
  | .mk _ f _ _ _ _ _ _ => f

def TSNodeData.isError : TSNodeData → Bool
  | .mk _ _ e _ _ _ _ _ => e

def TSNodeData.isMissing : TSNodeData → Bool
  | .mk _ _ _ m _ _ _ _ => m

def TSNodeData.isExtra : TSNodeData → Bool
  | .mk _ _ _ _ x _ _ _ => x

def TSNodeData.text : TSNodeData → String
  | .mk _ _ _ _ _ t _ _ => t

def TSNodeData.span : TSNodeData → Span
  | .mk _ _ _ _ _ _ sp _ => sp

def TSNodeData.children : TSNodeData → List TSNodeData
  | .mk _ _ _ _ _ _ _ cs => cs

/-- Model of `BlockEnds` from src/src/parsers/tree_sitter/node.rs. -/
inductive BlockEnds where
  | Braces
  | Brackets
  | Parens
  | Quotes
  | DoubleQuotes
  | SingleQuotes
  | None
deriving DecidableEq, Repr

/-- Model of `BlockEnds::get_open` (symbol strings from tree_sitter/syntax.rs). -/
def BlockEnds.getOpen (symbol : String) : BlockEnds :=
  match symbol with
  | "\x7b" => .Braces
  | "[" => .Brackets
  | "(" => .Parens
  | "\"" => .DoubleQuotes
  | "'" => .SingleQuotes
  | _ => .None

/-- Model of `BlockEnds::get_close`. -/
def BlockEnds.getClose (symbol : String) : BlockEnds :=
  match symbol with
  | "\x7d" => .Braces
  | "]" => .Brackets
  | ")" => .Parens
  | "\"" => .DoubleQuotes
  | "'" => .SingleQuotes
  | _ => .None

/-- Model of `BlockDelim` from src/src/parsers/tree_sitter/node.rs. -/
inductive BlockDelim where
  | Comma
  | Dot
  | None
deriving DecidableEq, Repr

/-- Model of `BlockDelim::get`. -/
def BlockDelim.get (symbol : String) : BlockDelim :=
  match symbol with
  | "," => .Comma
  | "." => .Dot
  | _ => .None

/-- Model of `add_comment` (src/src/parsers/tree_sitter/node.rs): insert a comment
node into the shared map keyed by its start row. -/
def addComment (n : TSNodeData) (c : Comments) : Except ModelError Comments :=
  c.tryInsert n.span.start.line ⟨n.text, n.span⟩

/-- Model of `TSCursorExt::get_next` (src/src/parsers/tree_sitter/node.rs): with the
cursor at the head of `sibs`, fail on error/missing nodes, insert comment
nodes (moving to the next sibling, or yielding `none` when the comment was
the last sibling — the cursor then stays on it), fail on other extras, and
return any other node (cursor unmoved). -/
def tsGetNext : List TSNodeData → Comments →
    Except ModelError (Option TSNodeData × List TSNodeData × Comments)
  | [], c => .ok (none, [], c)
  | n :: rest, c =>
    if n.isError || n.isMissing then
      .error (ModelError.parser "Parser error")
    else if n.kind == "comment" then
      match addComment n c with
      | .error e => .error e
      | .ok c2 =>
        match rest with
        | [] => .ok (none, [n], c2)
        | _ => tsGetNext rest c2
    else if n.isExtra then
      .error (ModelError.parser "Unexpected extra node")
    else .ok (some n, n :: rest, c)

/-- Model of `State` from src/src/parsers/tree_sitter/node.rs. -/
inductive State where
  | Enter
  | Open
  | Item
  | NextItem
  | Delim
  | NextDelim
  | Exhaust
  | Exit
  | Done
deriving DecidableEq, Repr

/-- Model of `TSNodeIterator` (src/src/parsers/tree_sitter/node.rs): the cursor is
modelled as the list of remaining siblings (head = current node); the
parent's children are loaded into `sibs` at creation so that `Enter`'s
`goto_first_child` succeeds exactly when `sibs` is nonempty, and the
`Exit`-state `goto_parent`/parent-identity checks always succeed (each
iterator owns the subtree it walks). -/
structure TSNodeIterator where
  state : State
  sibs : List TSNodeData
  ends : BlockEnds
  delim : BlockDelim

/-- Model of `TSNode::into_children`. -/
def TSNodeData.intoChildren (n : TSNodeData) : TSNodeIterator :=
  ⟨.Enter, n.children, .None, .None⟩

/-- Model of `TSNode::into_block`. -/
def TSNodeData.intoBlock (n : TSNodeData) (ends : BlockEnds)
    (delim : BlockDelim) : TSNodeIterator :=
  ⟨.Enter, n.children, ends, delim⟩

/-- Model of `TSNodeIterator::advance` (src/src/parsers/tree_sitter/node.rs): the
state-machine loop, fuelled (the Rust loop terminates because every
iteration either consumes a sibling or moves down the state order; the fuel
only bounds loop iterations and all theorems run concrete iterators with
ample fuel). The Rust `State::Item | State::Delim` arm and the
`State::NextItem | State::NextDelim` arm are each written out per state
here, with the state tests resolved. -/
def tsAdvance (fuel : Nat) (it : TSNodeIterator) (c : Comments) :
    Except ModelError (Option TSNodeData × TSNodeIterator × Comments) :=
  match fuel with
  | 0 => .error (ModelError.parser "fuel exhausted")
  | fuel + 1 =>
    match it.state with
    | .Enter =>
      match it.sibs with
      | [] => tsAdvance fuel { it with state := .Done } c
      | _ =>
        match it.ends with
        | .None => tsAdvance fuel { it with state := .Item } c
        | _ => tsAdvance fuel { it with state := .Open } c
    | .Open =>
      match tsGetNext it.sibs c with
      | .error e => .error e
      | .ok (some n, sibs2, c2) =>
        let actual := BlockEnds.getOpen n.kind
        match (if actual = .SingleQuotes ∧ it.ends = .Quotes then
            .ok BlockEnds.SingleQuotes
          else if actual = .DoubleQuotes ∧ it.ends = .Quotes then
            .ok BlockEnds.DoubleQuotes
          else if it.ends ≠ actual then
            .error (ModelError.parser "Expected open symbol")
          else .ok it.ends : Except ModelError BlockEnds) with
        | .error e => .error e
        | .ok newEnds =>
          match sibs2 with
          | [] => .error (ModelError.parser "invalid cursor")
          | _ :: rest2 =>
            if rest2.isEmpty then
              .error (ModelError.parser
                "Expected close symbol but iterator is exhausted")
            else
              tsAdvance fuel
                { it with state := .Item, sibs := rest2, ends := newEnds } c2
      | .ok (none, sibs2, c2) =>
        tsAdvance fuel { it with state := .Exit, sibs := sibs2 } c2
    | .Item =>
      match tsGetNext it.sibs c with
      | .error e => .error e
      | .ok (some n, sibs2, c2) =>
        if it.ends ≠ .None ∧ it.ends = BlockEnds.getClose n.kind then
          match sibs2 with
          | [] => .error (ModelError.parser "invalid cursor")
          | _ :: rest2 =>
            if rest2.isEmpty then
              tsAdvance fuel { it with state := .Exit, sibs := sibs2 } c2
            else
              tsAdvance fuel { it with state := .Exhaust, sibs := rest2 } c2
        else
          .ok (some n,
            { it with
              state :=
                if it.delim ≠ .None then State.NextDelim else State.NextItem,
              sibs := sibs2 }, c2)
      | .ok (none, sibs2, c2) =>
        if it.ends ≠ .None then
          .error (ModelError.parser
            "Expected close symbol but iterator is exhausted")
        else
          tsAdvance fuel { it with state := .Exit, sibs := sibs2 } c2
    | .Delim =>
      match tsGetNext it.sibs c with
      | .error e => .error e
      | .ok (some n, sibs2, c2) =>
        if it.ends ≠ .None ∧ it.ends = BlockEnds.getClose n.kind then
          match sibs2 with
          | [] => .error (ModelError.parser "invalid cursor")
          | _ :: rest2 =>
            if rest2.isEmpty then
              tsAdvance fuel { it with state := .Exit, sibs := sibs2 } c2
            else
              tsAdvance fuel { it with state := .Exhaust, sibs := rest2 } c2
        else if it.delim ≠ BlockDelim.get n.kind then
          .error (ModelError.parser "Expected delimiter")
        else
          tsAdvance fuel { it with state := .NextItem, sibs := sibs2 } c2
      | .ok (none, sibs2, c2) =>
        if it.ends ≠ .None then
          .error (ModelError.parser
            "Expected close symbol but iterator is exhausted")
        else
          tsAdvance fuel { it with state := .Exit, sibs := sibs2 } c2
    | .NextItem =>
      match it.sibs with
      | _ :: next :: rest =>
        tsAdvance fuel { it with state := .Item, sibs := next :: rest } c
      | _ =>
        if it.ends ≠ .None then
          .error (ModelError.parser
            "Expected close symbol but iterator is exhausted")
        else
          tsAdvance fuel { it with state := .Exit } c
    | .NextDelim =>
      match it.sibs with
      | _ :: next :: rest =>
        tsAdvance fuel { it with state := .Delim, sibs := next :: rest } c
      | _ =>
        if it.ends ≠ .None then
          .error (ModelError.parser
            "Expected close symbol but iterator is exhausted")
        else
          tsAdvance fuel { it with state := .Exit } c
    | .Exhaust =>
      match tsGetNext it.sibs c with
      | .error e => .error e
      | .ok (some _, _, _) =>
        .error (ModelError.parser "Expected iterator to be exhausted")
      | .ok (none, sibs2, c2) =>
        tsAdvance fuel { it with state := .Exit, sibs := sibs2 } c2
    | .Exit =>
      match it.sibs with
      | _ :: _ :: _ =>
        .error (ModelError.parser
          "Expected iterator to be exhausted but found next node")
      | _ => tsAdvance fuel { it with state := .Done } c
    | .Done => .ok (none, it, c)

/-- The collection loop of `TSNodeIterator::drain`: advance to exhaustion,
collecting the remaining non-comment nodes. -/
def tsDrainAux (fuel : Nat) (it : TSNodeIterator) (c : Comments) :
    Except ModelError (List TSNodeData × TSNodeIterator × Comments) :=
  match fuel with
  | 0 => .error (ModelError.parser "fuel exhausted")
  | fuel + 1 =>
    match tsAdvance (fuel + 1) it c with
    | .error e => .error e
    | .ok (none, it2, c2) => .ok ([], it2, c2)
    | .ok (some n, it2, c2) =>
      match tsDrainAux fuel it2 c2 with
      | .error e => .error e
      | .ok (tl, it3, c3) => .ok (n :: tl, it3, c3)

/-- Model of `TSNodeIterator::drain` (src/src/parsers/tree_sitter/node.rs): exhaust
the iterator (handling all remaining comments); when `ensureExhausted` and
any non-comment node remained, fail. -/
def tsDrain (fuel : Nat) (ensureExhausted : Bool) (it : TSNodeIterator)
    (c : Comments) : Except ModelError (TSNodeIterator × Comments) :=
  match tsDrainAux fuel it c with
  | .error e => .error e
  | .ok (remaining, it2, c2) =>
    if ensureExhausted && !remaining.isEmpty then
      .error (ModelError.parser
        "Expected iterator to be exhausted but found one or more nodes")
    else .ok (it2, c2)

/-- Model of `impl Drop for TSNodeIterator` (src/src/parsers/tree_sitter/node.rs
lines 626-630): `self.drain(false).unwrap()` — the drain result is
unwrapped, so an `Err` from the drain is a panic, not a discarded error. -/
def tsDropModel (fuel : Nat) (it : TSNodeIterator) (c : Comments) :
    DropOutcome × Comments :=
  match tsDrain fuel false it c with
  | .ok (_, c2) => (DropOutcome.ok, c2)
  | .error _ => (DropOutcome.panicked, c)

/-- Model of `TSNodeIterator::next_node`. -/
def tsNextNode (fuel : Nat) (it : TSNodeIterator) (c : Comments) :
    Except ModelError (TSNodeData × TSNodeIterator × Comments) :=
  match tsAdvance fuel it c with
  | .error e => .error e
  | .ok (some n, it2, c2) => .ok (n, it2, c2)
  | .ok (none, _, _) =>
    .error (ModelError.parser "Expected next node but iterator is exhausted")

/-- Model of `TSNodeIterator::skip_terminal`: the next node must be a fieldless node
of the given kind. -/
def tsSkipTerminal (fuel : Nat) (kind : String) (it : TSNodeIterator)
    (c : Comments) : Except ModelError (TSNodeIterator × Comments) :=
  match tsAdvance fuel it c with
  | .error e => .error e
  | .ok (some n, it2, c2) =>
    if n.field = none ∧ n.kind = kind then .ok (it2, c2)
    else .error (ModelError.parser "Expected next node to be a terminal")
  | .ok (none, _, _) =>
    .error (ModelError.parser
      "Expected next node to be a terminal but iterator is exhausted")

/-- Model of `TSNodeIterator::skip_optional_last`: `true` when the next node is a
fieldless node of the given kind, `false` when exhausted, an error on any
other node. -/
def tsSkipOptionalLast (fuel : Nat) (kind : String) (it : TSNodeIterator)
    (c : Comments) : Except ModelError (Bool × TSNodeIterator × Comments) :=
  match tsAdvance fuel it c with
  | .error e => .error e
  | .ok (some n, it2, c2) =>
    if n.field = none ∧ n.kind = kind then .ok (true, it2, c2)
    else .error (ModelError.parser "Expected next node to be a terminal")
  | .ok (none, it2, c2) => .ok (false, it2, c2)

/-- Model of `TSNodeIterator::get_next_field`: the next node if it is a field of the
given name; `none` if exhausted; an error on any other node. -/
def tsGetNextField (fuel : Nat) (name : String) (it : TSNodeIterator)
    (c : Comments) :
    Except ModelError (Option TSNodeData × TSNodeIterator × Comments) :=
  match tsAdvance fuel it c with
  | .error e => .error e
  | .ok (some n, it2, c2) =>
    if n.field = some name then .ok (some n, it2, c2)
    else .error (ModelError.parser "Expected next node to be a field")
  | .ok (none, it2, c2) => .ok (none, it2, c2)

/-- Model of `TSNodeIterator::next_field`: like `get_next_field` but an error when
exhausted. -/
def tsNextField (fuel : Nat) (name : String) (it : TSNodeIterator)
    (c : Comments) :
    Except ModelError (TSNodeData × TSNodeIterator × Comments) :=
  match tsGetNextField fuel name it c with
  | .error e => .error e
  | .ok (some n, it2, c2) => .ok (n, it2, c2)
  | .ok (none, _, _) =>
    .error (ModelError.parser
      "Expected next node to be a field but iterator is exhausted")

/-- Model of `TSNodeIterator::set_delim`: only allowed between items. -/
def tsSetDelim (delim : BlockDelim) (it : TSNodeIterator) :
    Except ModelError TSNodeIterator :=
  match it.state with
  | .NextItem => .ok { it with delim := delim }
  | .NextDelim => .ok { it with delim := delim }
  | _ => .error (ModelError.parser "Cannot initiate list from state")

/-- Result of a lowering step in the tree-sitter backend: success threading
the comment map, a propagated `Err`, or a panic (from an `unwrap` in a
`Drop`). -/
inductive LowerRes (α : Type) where
  | ok (a : α) (c : Comments)
  | err (e : ModelError)
  | panicked

/-- Model of `TSNodeIterator::collect_anchors`: drive the iterator to exhaustion,
anchoring each converted node at its span. -/
def tsCollectAnchors (fuel : Nat)
    (conv : TSNodeData → Comments → LowerRes α) :
    TSNodeIterator → Comments → LowerRes (List (Anchor α) × TSNodeIterator)
  | it, c =>
    match fuel with
    | 0 => .err (ModelError.parser "fuel exhausted")
    | fuel + 1 =>
      match tsAdvance (fuel + 1) it c with
      | .error e => .err e
      | .ok (none, it2, c2) => .ok ([], it2) c2
      | .ok (some n, it2, c2) =>
        match conv n c2 with
        | .err e => .err e
        | .panicked => .panicked
        | .ok a c3 =>
          match tsCollectAnchors fuel conv it2 c3 with
          | .ok (tl, it3) c4 => .ok ((⟨a, n.span⟩ : Anchor α) :: tl, it3) c4
          | .err e => .err e
          | .panicked => .panicked

/-- Model of `impl TryFrom<TSNode> for String`: the node's text. -/
def tsStringAnchor (n : TSNodeData) : Anchor String :=
  ⟨n.text, n.span⟩

/-- Model of `impl TryFrom<TSNode> for QualifiedIdentifier`
(src/src/parsers/tree_sitter/workflow.rs): collect the parts of a
dot-delimited block; the block iterator is dropped at the end of the
expression. -/
def tsQualifiedIdentifierFrom (fuel : Nat) (node : TSNodeData)
    (c : Comments) : LowerRes QualifiedIdentifier :=
  match tsCollectAnchors fuel (fun n c2 => .ok n.text c2)
      (node.intoBlock .None .Dot) c with
  | .err e => .err e
  | .panicked => .panicked
  | .ok (parts, it2) c2 =>
    match tsDropModel fuel it2 c2 with
    | (.ok, c3) => .ok ⟨parts⟩ c3
    | (.panicked, _) => .panicked

/-- Partial embedding of `impl TryFrom<TSNode> for Expression`
(src/src/parsers/tree_sitter/expressions.rs): only the `identifier` leaf is
modelled — no claim exercises expression lowering. -/
def tsExpressionFrom (n : TSNodeData) (c : Comments) : LowerRes Expression :=
  if n.kind = "identifier" then .ok (.Identifier n.text) c
  else .err (ModelError.parser "expression production not modelled")

/-- Model of `impl TryFrom<TSNode> for CallInput`
(src/src/parsers/tree_sitter/workflow.rs): a `name` field, then an optional
`= expression`; the child iterator is dropped at scope end. -/
def tsCallInputFrom (fuel : Nat) (node : TSNodeData) (c : Comments) :
    LowerRes CallInput :=
  match tsNextField fuel "name" node.intoChildren c with
  | .error e => .err e
  | .ok (nameNode, ch1, c1) =>
  let name := tsStringAnchor nameNode
  match tsSkipOptionalLast fuel "=" ch1 c1 with
  | .error e => .err e
  | .ok (true, ch2, c2) =>
    match tsNextField fuel "expression" ch2 c2 with
    | .error e => .err e
    | .ok (exprNode, ch3, c3) =>
      match tsExpressionFrom exprNode c3 with
      | .err e => .err e
      | .panicked => .panicked
      | .ok ex c4 =>
        match tsDropModel fuel ch3 c4 with
        | (.ok, c5) => .ok ⟨name, some ⟨ex, exprNode.span⟩⟩ c5
        | (.panicked, _) => .panicked
  | .ok (false, ch2, c2) =>
    match tsDropModel fuel ch2 c2 with
    | (.ok, c3) => .ok ⟨name, none⟩ c3
    | (.panicked, _) => .panicked

/-- Model of `impl TryFrom<TSNode> for Call` (src/src/parsers/tree_sitter/workflow.rs
lines 41-84): skip the `call` keyword; take the `target` field; inspect the
next child's field — an `alias` field yields the alias (its `as` keyword
skipped, its `name` field taken, its iterator explicitly dropped) and then
an optional `inputs` field; an `inputs` field is used directly; no next
child (or a fieldless one) means no alias and no inputs. An `inputs` node is
opened as a braces block: when it starts with the `input` keyword, a `:` is
skipped, the delimiter is set to comma and the call inputs are collected;
otherwise the block was empty and `inputs = Some([])`. Error paths return
before the scope-end drops; on success every iterator drop is modelled. -/
def tsCallFrom (fuel : Nat) (node : TSNodeData) (c : Comments) :
    LowerRes Call :=
  match tsSkipTerminal fuel "call" node.intoChildren c with
  | .error e => .err e
  | .ok (ch1, c1) =>
  match tsNextField fuel "target" ch1 c1 with
  | .error e => .err e
  | .ok (targetNode, ch2, c2) =>
  match tsQualifiedIdentifierFrom fuel targetNode c2 with
  | .err e => .err e
  | .panicked => .panicked
  | .ok qi c3 =>
  let target : Anchor QualifiedIdentifier := ⟨qi, targetNode.span⟩
  match tsAdvance fuel ch2 c3 with
  | .error e => .err e
  | .ok (next, ch3, c4) =>
  match (match next with
    | none => LowerRes.ok (Option.none (α := Anchor String), Option.none
        (α := TSNodeData), ch3) c4
    | some nd =>
      match nd.field with
      | none => LowerRes.ok (Option.none (α := Anchor String), Option.none
          (α := TSNodeData), ch3) c4
      | some f =>
        if f = "alias" then
          match tsSkipTerminal fuel "as" nd.intoChildren c4 with
          | .error e => .err e
          | .ok (ach1, c5) =>
            match tsNextField fuel "name" ach1 c5 with
            | .error e => .err e
            | .ok (nameNode, ach2, c6) =>
              match tsDropModel fuel ach2 c6 with
              | (.panicked, _) => .panicked
              | (.ok, c7) =>
                match tsGetNextField fuel "inputs" ch3 c7 with
                | .error e => .err e
                | .ok (inOpt, ch4, c8) =>
                  .ok (some (tsStringAnchor nameNode), inOpt, ch4) c8
        else if f = "inputs" then
          LowerRes.ok (Option.none (α := Anchor String), some nd, ch3) c4
        else .err (ModelError.parser "Invalid call field") :
      LowerRes (Option (Anchor String) × Option TSNodeData × TSNodeIterator)) with
  | .err e => .err e
  | .panicked => .panicked
  | .ok (aliasOpt, nextIn, ch4) c8 =>
  match (match nextIn with
    | some inputsNode =>
      match tsSkipOptionalLast fuel "input"
          (inputsNode.intoBlock .Braces .None) c8 with
      | .error e => .err e
      | .ok (true, ic1, c9) =>
        match tsSkipTerminal fuel ":" ic1 c9 with
        | .error e => .err e
        | .ok (ic2, c10) =>
          match tsSetDelim .Comma ic2 with
          | .error e => .err e
          | .ok ic3 =>
            match tsCollectAnchors fuel (tsCallInputFrom fuel) ic3 c10 with
            | .err e => .err e
            | .panicked => .panicked
            | .ok (ins, ic4) c11 =>
              match tsDropModel fuel ic4 c11 with
              | (.ok, c12) => .ok (some ins) c12
              | (.panicked, _) => .panicked
      | .ok (false, ic1, c9) =>
        match tsDropModel fuel ic1 c9 with
        | (.ok, c10) => .ok (some ([] : List (Anchor CallInput))) c10
        | (.panicked, _) => .panicked
    | none => LowerRes.ok (Option.none (α := List (Anchor CallInput))) c8 :
      LowerRes (Option (List (Anchor CallInput)))) with
  | .err e => .err e
  | .panicked => .panicked
  | .ok inputs c12 =>
  match tsDropModel fuel ch4 c12 with
  | (.ok, c13) => .ok (⟨target, aliasOpt, inputs⟩ : Call) c13
  | (.panicked, _) => .panicked

/-- A one-line span helper for concrete test trees. -/
def mkSpan (a b : Nat) : Span :=
  Span.fromComponents 0 a a 0 b b

/-- A plain (non-error, non-extra) tree-sitter node. -/
def tsn (kind : String) (field : Option String) (text : String) (span : Span)
    (children : List TSNodeData) : TSNodeData :=
  .mk kind field false false false text span children

/-- No drop of a `PestNodes` iterator panics: every branch of the `Drop`
loop — including the one that receives an `Err` from `get_next_pair` —
breaks normally. -/
theorem pestDropLoop_ok_aux :
    ∀ (n : Nat) (pairs : List PestPair) (c : Comments),
      pairs.length ≤ n → (pestDropLoop pairs c).1 = DropOutcome.ok := by
  intro n
  induction n with
  | zero =>
    intro pairs c hlen
    have hnil : pairs = [] := List.length_eq_zero.mp (Nat.le_zero.mp hlen)
    subst hnil
    unfold pestDropLoop
    rfl
  | succ n ih =>
    intro pairs c hlen
    unfold pestDropLoop
    split
    · rename_i p rest c2 h
      exact ih rest c2 (by have := getNextPair_some_length h; omega)
    · rfl
    · rfl

/-- A tree-sitter parse-error node and a parent holding it, used to drive
the TS cursor drop into the erroring drain. -/
def tsErrorChildNode : TSNodeData :=
  .mk "ERROR" none true false false "" (mkSpan 0 1) []

def tsErrorParent : TSNodeData :=
  .mk "workflow" none false false false "" (mkSpan 0 1) [tsErrorChildNode]

/-- Claim C1 (counterexample): dropping a fresh `TSNodeIterator` over a
parent whose remaining child is a parse-error node panics — `drain(false)`
returns an `Err` and `Drop` calls `.unwrap()` on it — contradicting the
claim that dropping a cursor of either backend never panics and discards
drain errors. -/
theorem cursorDrop_counterexample :
    (tsDropModel 10 tsErrorParent.intoChildren Comments.empty).1 =
      DropOutcome.panicked := by
  rfl

/-- Claim C1 (amended): dropping a `PestNodes` cursor never panics — its
drop loop drains remaining pairs into the comment map and stops on, rather
than raising, any error; dropping a `TSNodeIterator` drains the remaining
children but unwraps the drain result, so any error during that drain (for
example a parse-error child) is a panic, not a discarded error. -/
theorem cursorDrop_amended :
    (∀ (pairs : List PestPair) (c : Comments),
      (pestDropLoop pairs c).1 = DropOutcome.ok) ∧
    (∀ (fuel : Nat) (it : TSNodeIterator) (c : Comments) (e : ModelError),
      tsDrain fuel false it c = .error e →
      (tsDropModel fuel it c).1 = DropOutcome.panicked) := by
  constructor
  · intro pairs c
    exact pestDropLoop_ok_aux pairs.length pairs c (Nat.le_refl _)
  · intro fuel it c e h
    simp [tsDropModel, h]

/-- Claim C1 (witness): the pest drop on a concrete pair list, and the TS
drop panicking on the concrete erroring cursor. -/
theorem cursorDrop_witness :
    (pestDropLoop [PestPair.mk .EOI "" (mkSpan 0 1) []] Comments.empty).1 =
      DropOutcome.ok ∧
    (tsDropModel 10 tsErrorParent.intoChildren Comments.empty).1 =
      DropOutcome.panicked :=
  ⟨cursorDrop_amended.1 [PestPair.mk .EOI "" (mkSpan 0 1) []] Comments.empty,
   cursorDrop_amended.2 10 tsErrorParent.intoChildren Comments.empty
     (ModelError.parser "Parser error") rfl⟩

/-- Modelled from the spec: the tree-sitter grammar artifact (not under
src/) produces for `call T` a `call` node whose children are the bare
keyword `call` and a `target` field holding the dotted name; a written
`{ ... }` block appears as an extra `inputs` field child whose own children
are the brace tokens (anonymous tree-sitter nodes whose kind is the token
text) around any content; `as U` appears before it as an `alias` field
child containing the keyword `as` and a `name` field. -/
def tsCallKw : TSNodeData := tsn "call" none "call" (mkSpan 0 4) []

def tsTargetT : TSNodeData :=
  tsn "qualified_name" (some "target") "T" (mkSpan 5 6)
    [tsn "identifier" none "T" (mkSpan 5 6) []]

def tsInputsEmpty : TSNodeData :=
  tsn "call_body" (some "inputs") "\x7b\x7d" (mkSpan 7 9)
    [tsn "\x7b" none "\x7b" (mkSpan 7 8) [], tsn "\x7d" none "\x7d" (mkSpan 8 9) []]

def tsAliasU : TSNodeData :=
  tsn "call_as" (some "alias") "as U" (mkSpan 7 11)
    [tsn "as" none "as" (mkSpan 7 9) [],
     tsn "identifier" (some "name") "U" (mkSpan 10 11) []]

def tsCallT : TSNodeData :=
  tsn "call" none "call T" (mkSpan 0 6) [tsCallKw, tsTargetT]

def tsCallTEmpty : TSNodeData :=
  tsn "call" none "call T \x7b\x7d" (mkSpan 0 9) [tsCallKw, tsTargetT, tsInputsEmpty]

def tsCallTAliasEmpty : TSNodeData :=
  tsn "call" none "call T as U \x7b\x7d" (mkSpan 0 14)
    [tsCallKw, tsTargetT, tsAliasU, tsInputsEmpty]

/-- Modelled from the spec: the pest grammar (wdl.pest, not under src/)
produces for `call T` a `call` pair containing just a `qualified_identifier`
pair of `identifier` pairs; a written `{ ... }` block adds a `call_inputs`
pair (childless when the block is empty); `as U` adds a `call_alias` pair
holding the alias identifier before it. -/
def pIdT : PestPair := .mk .identifier "T" (mkSpan 5 6) []

def pQIT : PestPair := .mk .qualified_identifier "T" (mkSpan 5 6) [pIdT]

def pEmptyInputs : PestPair := .mk .call_inputs "" (mkSpan 8 9) []

def pAliasU : PestPair :=
  .mk .call_alias "as U" (mkSpan 7 11) [.mk .identifier "U" (mkSpan 10 11) []]

def pestCallT : PestPair := .mk .call "call T" (mkSpan 0 6) [pQIT]

def pestCallTEmpty : PestPair :=
  .mk .call "call T \x7b\x7d" (mkSpan 0 9) [pQIT, pEmptyInputs]

def pestCallTAliasEmpty : PestPair :=
  .mk .call "call T as U \x7b\x7d" (mkSpan 0 14) [pQIT, pAliasU, pEmptyInputs]

/-- The observable shape of a lowered call: target parts, alias name, and
`inputs` with the element count (so `None` and `Some []` stay distinct). -/
def callShape (call : Call) : List String × Option String × Option Nat :=
  (call.target.element.parts.map (fun a => a.element),
   call.«alias».map (fun a => a.element),
   call.inputs.map List.length)

def tsCallShape : LowerRes Call →
    Option (List String × Option String × Option Nat)
  | .ok call _ => some (callShape call)
  | _ => none

def pestCallShape : Except ModelError (Call × Comments) →
    Option (List String × Option String × Option Nat)
  | .ok (call, _) => some (callShape call)
  | .error _ => none

/-- Claim C4: in both backends, a call without a braces block lowers to
`inputs = None`; an empty braces block lowers to `inputs = Some([])`; an
alias with an empty block additionally sets `alias = Some("U")`. -/
theorem callLowering_confirmed :
    tsCallShape (tsCallFrom 100 tsCallT Comments.empty) =
      some (["T"], none, none) ∧
    tsCallShape (tsCallFrom 100 tsCallTEmpty Comments.empty) =
      some (["T"], none, some 0) ∧
    tsCallShape (tsCallFrom 100 tsCallTAliasEmpty Comments.empty) =
      some (["T"], some "U", some 0) ∧
    pestCallShape (pestCallFrom pestCallT Comments.empty) =
      some (["T"], none, none) ∧
    pestCallShape (pestCallFrom pestCallTEmpty Comments.empty) =
      some (["T"], none, some 0) ∧
    pestCallShape (pestCallFrom pestCallTAliasEmpty Comments.empty) =
      some (["T"], some "U", some 0) := by
  refine ⟨rfl, rfl, rfl, ?_, ?_, ?_⟩
  · simp [pestCallShape, callShape, pestCallFrom, pestNextNode, getNextPair,
      pestCallT, pQIT, pIdT, pestQualifiedIdentifierFrom, pestCollect,
      trimRightList, peekRule, pestDropLoop, anchorWithInnerSpan,
      QualifiedIdentifier.getInnerSpan, listAnchorInnerSpan,
      PestPair.children, PestPair.rule, PestPair.text, PestPair.span]
  · simp [pestCallShape, callShape, pestCallFrom, pestNextNode, getNextPair,
      pestCallTEmpty, pQIT, pIdT, pEmptyInputs, pestQualifiedIdentifierFrom,
      pestCollect, trimRightList, peekRule, pestDropLoop,
      anchorWithInnerSpan, QualifiedIdentifier.getInnerSpan,
      listAnchorInnerSpan, PestPair.children, PestPair.rule, PestPair.text,
      PestPair.span]
  · simp [pestCallShape, callShape, pestCallFrom, pestNextNode, getNextPair,
      pestCallTAliasEmpty, pQIT, pIdT, pEmptyInputs, pAliasU,
      pestQualifiedIdentifierFrom, pestCollect, trimRightList, peekRule,
      pestDropLoop, anchorWithInnerSpan, QualifiedIdentifier.getInnerSpan,
      listAnchorInnerSpan, PestPair.children, PestPair.rule, PestPair.text,
      PestPair.span]

end Wdl
